import Mathlib

/-!
Shallow embedding of the `monad-plays-pokemon` indexer
(`src/indexer/src/voteAggregator.ts`, `src/indexer/src/index.ts`,
`src/indexer/src/emulator.ts`, `src/indexer/src/config.ts`) together with
theorems settling the specification claims about it.

Conventions: JavaScript numbers that are always nonnegative integers in the
source (block numbers, action codes, counters, durations) are `Nat`;
`currentWindow`, which is initialized to `-1`, is `Int`; JS `Map` objects are
insertion-ordered association lists; JS `Set<string>` is a duplicate-free
`List String`; nullable values are `Option`; callbacks (`onWindowComplete`,
`io.emit`) are modelled by returning the list of emitted values.
-/

namespace MPP

/-- The `Actions` enum of `config.ts`: the eight button codes, wire-encoded
as list positions 0..7. -/
inductive Action where
  | UP
  | DOWN
  | LEFT
  | RIGHT
  | A
  | B
  | START
  | SELECT
deriving DecidableEq, Repr

/-- Model of `export const Actions = ["UP", ..., "SELECT"]` from `config.ts`:
the canonical enum order. -/
def Actions : List Action :=
  [.UP, .DOWN, .LEFT, .RIGHT, .A, .B, .START, .SELECT]

/-- The `Vote` interface of `voteAggregator.ts`. -/
structure Vote where
  player : String
  action : Nat
  blockNumber : Nat
deriving DecidableEq, Repr

/-- The `voteCounts : Record<Action, number>` record built in
`finalizeWindow`, one counter per action. -/
structure VoteCounts where
  UP : Nat
  DOWN : Nat
  LEFT : Nat
  RIGHT : Nat
  A : Nat
  B : Nat
  START : Nat
  SELECT : Nat
deriving DecidableEq, Repr

/-- The all-zero record literal that `finalizeWindow` starts from. -/
def VoteCounts.zero : VoteCounts := ⟨0, 0, 0, 0, 0, 0, 0, 0⟩

/-- Reading one field of the tally record (`voteCounts[action]`). -/
def VoteCounts.get (c : VoteCounts) : Action → Nat
  | .UP => c.UP
  | .DOWN => c.DOWN
  | .LEFT => c.LEFT
  | .RIGHT => c.RIGHT
  | .A => c.A
  | .B => c.B
  | .START => c.START
  | .SELECT => c.SELECT

/-- Model of `voteCounts[actionName]++`. -/
def VoteCounts.incr (c : VoteCounts) : Action → VoteCounts
  | .UP => { c with UP := c.UP + 1 }
  | .DOWN => { c with DOWN := c.DOWN + 1 }
  | .LEFT => { c with LEFT := c.LEFT + 1 }
  | .RIGHT => { c with RIGHT := c.RIGHT + 1 }
  | .A => { c with A := c.A + 1 }
  | .B => { c with B := c.B + 1 }
  | .START => { c with START := c.START + 1 }
  | .SELECT => { c with SELECT := c.SELECT + 1 }

/-- The `WindowResult` interface of `voteAggregator.ts`. -/
structure WindowResult where
  windowId : Nat
  startBlock : Nat
  endBlock : Nat
  winningAction : Action
  votes : VoteCounts
  totalVotes : Nat
deriving DecidableEq, Repr

/-- The mutable fields of class `VoteAggregator`: `windowSize`,
`currentWindow` (initialized to `-1`) and the `votes : Map<number, Vote[]>`
store, modelled as an insertion-ordered association list. -/
structure AggState where
  windowSize : Nat
  currentWindow : Int
  votes : List (Nat × List Vote)
deriving DecidableEq, Repr

/-- Model of `Map.get` on the vote store. -/
def votesLookup : List (Nat × List Vote) → Nat → Option (List Vote)
  | [], _ => none
  | (k, vs) :: rest, key => if k = key then some vs else votesLookup rest key

/-- Model of `Map.delete` on the vote store. -/
def votesErase : List (Nat × List Vote) → Nat → List (Nat × List Vote)
  | [], _ => []
  | (k, vs) :: rest, key =>
    if k = key then rest else (k, vs) :: votesErase rest key

/-- Model of `Map.set` on the vote store: overwrite in place, else append. -/
def votesSet : List (Nat × List Vote) → Nat → List Vote → List (Nat × List Vote)
  | [], key, nvs => [(key, nvs)]
  | (k, vs) :: rest, key, nvs =>
    if k = key then (key, nvs) :: rest else (k, vs) :: votesSet rest key nvs

/-- Model of `if (!votes.has(w)) votes.set(w, []); votes.get(w)!.push(v)` from
`addVote`. -/
def votesPush (m : List (Nat × List Vote)) (key : Nat) (v : Vote) :
    List (Nat × List Vote) :=
  match votesLookup m key with
  | some vs => votesSet m key (vs ++ [v])
  | none => votesSet m key [v]

/-- The counting loop of `finalizeWindow`: look up `Actions[vote.action]`
(out-of-range codes are `undefined` and are skipped) and increment. -/
def tally (windowVotes : List Vote) : VoteCounts :=
  windowVotes.foldl
    (fun c v =>
      match Actions.get? v.action with
      | some actionName => c.incr actionName
      | none => c)
    VoteCounts.zero

/-- One iteration of the winner-selection loop of `finalizeWindow`:
`if (voteCounts[action] > maxVotes) { maxVotes = ...; winningAction = action }`. -/
def winStep (f : Action → Nat) (p : Action × Nat) (a : Action) : Action × Nat :=
  if f a > p.2 then (a, f a) else p

/-- The winner-selection loop of `finalizeWindow`, starting from
`winningAction = "UP"`, `maxVotes = 0` and scanning `Actions` in enum
order. Returns `(winningAction, maxVotes)`. -/
def electWinner (voteCounts : VoteCounts) : Action × Nat :=
  Actions.foldl (winStep voteCounts.get) (Action.UP, 0)

/-- Model of `getWindowId`: `Math.floor(blockNumber / windowSize)`. -/
def getWindowId (s : AggState) (blockNumber : Nat) : Nat :=
  blockNumber / s.windowSize

/-- Model of `VoteAggregator.finalizeWindow`.  Returns the updated state and the
result handed to `onWindowComplete` (`none` for an empty window). -/
def finalizeWindow (s : AggState) (windowId : Nat) :
    AggState × Option WindowResult :=
  let windowVotes := (votesLookup s.votes windowId).getD []
  if windowVotes.length = 0 then
    ({ s with votes := votesErase s.votes windowId }, none)
  else
    let voteCounts := tally windowVotes
    let winningAction := (electWinner voteCounts).1
    ({ s with votes := votesErase s.votes windowId },
      some ⟨windowId, windowId * s.windowSize, (windowId + 1) * s.windowSize - 1,
            winningAction, voteCounts, windowVotes.length⟩)

/-- The body of the finalization loop shared by `addVote` and `onBlock`,
structured on the number of remaining iterations: finalize windows
`lo, lo+1, ..., lo+n-1` in order, collecting the emitted results. -/
def finalizeCount (s : AggState) (lo : Nat) : Nat → AggState × List WindowResult
  | 0 => (s, [])
  | n + 1 =>
    let p := finalizeWindow s lo
    let q := finalizeCount p.1 (lo + 1) n
    (q.1, p.2.toList ++ q.2)

/-- The finalization loop `for (let w = lo; w < hi; w++) finalizeWindow(w)`
shared by `addVote` and `onBlock`; collects the emitted results in order. -/
def finalizeRange (s : AggState) (lo hi : Nat) : AggState × List WindowResult :=
  finalizeCount s lo (hi - lo)

/-- Model of `VoteAggregator.addVote`. -/
def addVote (s : AggState) (player : String) (action : Nat)
    (blockNumber : Nat) : AggState × List WindowResult :=
  let windowId := getWindowId s blockNumber
  let s1 := if s.currentWindow = -1 then { s with currentWindow := (windowId : Int) } else s
  let p :=
    if (windowId : Int) > s1.currentWindow then
      let q := finalizeRange s1 s1.currentWindow.toNat windowId
      ({ q.1 with currentWindow := (windowId : Int) }, q.2)
    else (s1, ([] : List WindowResult))
  ({ p.1 with votes := votesPush p.1.votes windowId ⟨player, action, blockNumber⟩ },
   p.2)

/-- Model of `VoteAggregator.onBlock`. -/
def onBlock (s : AggState) (blockNumber : Nat) : AggState × List WindowResult :=
  let windowId := getWindowId s blockNumber
  if s.currentWindow = -1 then
    ({ s with currentWindow := (windowId : Int) }, [])
  else if (windowId : Int) > s.currentWindow then
    let q := finalizeRange s s.currentWindow.toNat windowId
    ({ q.1 with currentWindow := (windowId : Int) }, q.2)
  else (s, [])

/-- Model of `VoteAggregator.forceFinalize`. -/
def forceFinalize (s : AggState) : AggState × List WindowResult :=
  if s.currentWindow ≥ 0 then
    let p := finalizeWindow s s.currentWindow.toNat
    ({ p.1 with currentWindow := s.currentWindow + 1 }, p.2.toList)
  else (s, [])

/-- One call on the aggregator's public interface. -/
inductive AggInput where
  | addVote (player : String) (action : Nat) (blockNumber : Nat)
  | onBlock (blockNumber : Nat)
  | forceFinalize
deriving DecidableEq, Repr

/-- The block number carried by an input, if any. -/
def AggInput.blockOf : AggInput → Option Nat
  | .addVote _ _ b => some b
  | .onBlock b => some b
  | .forceFinalize => none

/-- Whether an input is an `onBlock` tick. -/
def AggInput.isOnBlock : AggInput → Bool
  | .onBlock _ => true
  | _ => false

/-- Dispatch one aggregator call. -/
def step (s : AggState) : AggInput → AggState × List WindowResult
  | .addVote player action blockNumber => addVote s player action blockNumber
  | .onBlock blockNumber => onBlock s blockNumber
  | .forceFinalize => forceFinalize s

/-- Run a sequence of aggregator calls from a given state, collecting every
result passed to `onWindowComplete` in emission order. -/
def runAux : AggState → List AggInput → AggState × List WindowResult
  | s, [] => (s, [])
  | s, i :: is =>
    let p := step s i
    let q := runAux p.1 is
    (q.1, p.2 ++ q.2)

/-- The state of a freshly constructed `VoteAggregator`. -/
def initState (windowSize : Nat) : AggState := ⟨windowSize, -1, []⟩

/-- Run a sequence of calls on a freshly constructed aggregator. -/
def run (windowSize : Nat) (ins : List AggInput) : AggState × List WindowResult :=
  runAux (initState windowSize) ins

/-- The running-maximum loop `if (f a > m) m = f a` over a list, used to
characterize the winner-selection loop. -/
def runMax (f : Action → Nat) (l : List Action) (m : Nat) : Nat :=
  l.foldl (fun m a => if f a > m then f a else m) m

/-- The largest tally of a tally record. -/
def maxTally (c : VoteCounts) : Nat := runMax c.get Actions 0

/-- The first action in canonical enum order whose tally attains the
maximum; this is what the winner-selection loop computes. -/
def firstArgmax (c : VoteCounts) : Action :=
  (Actions.find? fun a => decide (maxTally c ≤ c.get a)).getD Action.UP

/-- The sum over all eight actions of a tally record. -/
def specSumTallies (c : VoteCounts) : Nat := (Actions.map c.get).sum

/-- Modelled from the spec (§4.2 Election / scenario 2): the tie-break the
spec describes, which is absent from `voteAggregator.ts` — reduce the
prior-block hash XORed with the windowId modulo the number of tied actions
and pick that element of the canonically sorted tied list. -/
def specHashTieWinner (hash windowId : Nat) (tied : List Action) : Option Action :=
  tied.get? ((hash ^^^ windowId) % tied.length)

/-- Every vote bucketed in the store satisfies `P` and sits under its own
window id (`⌊block / windowSize⌋`). -/
def VotesWF (W : Nat) (P : Vote → Prop) (m : List (Nat × List Vote)) : Prop :=
  ∀ p ∈ m, ∀ v ∈ p.2, P v ∧ v.blockNumber / W = p.1

/-- Window `k` holds no recorded votes: any store entry under key `k` is
the empty list. -/
def AllEmptyAt (m : List (Nat × List Vote)) (k : Nat) : Prop :=
  ∀ vs, (k, vs) ∈ m → vs = []

/-- An aggregator call whose constructed vote (if any) satisfies `P`. -/
def InputOK (P : Vote → Prop) : AggInput → Prop
  | .addVote player action blockNumber => P ⟨player, action, blockNumber⟩
  | .onBlock _ => True
  | .forceFinalize => True

/-- What a `WindowResult` emitted by `finalizeWindow` looks like: it is
built from the nonempty list `vs` of votes stored for its window, all of
which satisfy `P` and lie in the window. -/
def ResultOK (W : Nat) (P : Vote → Prop) (r : WindowResult) : Prop :=
  ∃ vs : List Vote, vs ≠ [] ∧
    (∀ v ∈ vs, P v ∧ v.blockNumber / W = r.windowId) ∧
    r.votes = tally vs ∧
    r.winningAction = (electWinner (tally vs)).1 ∧
    r.totalVotes = vs.length ∧
    r.startBlock = r.windowId * W ∧
    r.endBlock = (r.windowId + 1) * W - 1

/-- Model of `getEventKey` from `index.ts`: the dedup key, the block number, the
transaction hash and the log index joined by dashes. -/
def getEventKey (blockNumber : Nat) (txHash : String) (logIndex : Nat) : String :=
  toString blockNumber ++ "-" ++ txHash ++ "-" ++ toString logIndex

/-- The `CachedVote` broadcast shape of `index.ts` (`action` is
`Actions[action]`, which is `undefined` for an out-of-range code). -/
structure CachedVote where
  player : String
  action : Option Action
  blockNumber : Nat
  txHash : String
  timestamp : Nat
deriving DecidableEq, Repr

/-- Model of `addToCircularBuffer`: push, then shift once if over capacity. -/
def addToCircularBuffer (buffer : List CachedVote) (item : CachedVote)
    (maxSize : Nat) : List CachedVote :=
  let b := buffer ++ [item]
  if maxSize < b.length then b.drop 1 else b

/-- Model of `MAX_CACHED_VOTES` (default). -/
def MAX_CACHED_VOTES : Nat := 100

/-- The module-level mutable state of `index.ts` that `processVoteEvent`
touches: the `seenEvents` set (a duplicate-free list of keys), the
aggregator, and the `recentVotes` circular buffer.  Broadcast side effects
(`io.emit`) and the window-result callback are modelled elsewhere. -/
structure IndexerState where
  seenEvents : List String
  aggregator : AggState
  recentVotes : List CachedVote
deriving DecidableEq, Repr

/-- Model of `processVoteEvent` from `index.ts` (both ingestion paths call it):
dedup on the event key, then record the vote in the aggregator, cache it
and return `true`; return `false` for an already-seen key. -/
def processVoteEvent (s : IndexerState) (player : String) (action : Nat)
    (blockNumber : Nat) (txHash : String) (logIndex : Nat) (now : Nat) :
    IndexerState × Bool :=
  let eventKey := getEventKey blockNumber txHash logIndex
  if eventKey ∈ s.seenEvents then (s, false)
  else
    let agg := addVote s.aggregator player action blockNumber
    let voteData : CachedVote := ⟨player, Actions.get? action, blockNumber, txHash, now⟩
    (⟨s.seenEvents ++ [eventKey], agg.1,
      addToCircularBuffer s.recentVotes voteData MAX_CACHED_VOTES⟩, true)

/-- One ingestion event reaching the indexer: a decoded `VoteCast` log
(from either the subscription or the polling path) or a block tick. -/
inductive IndexerEvent where
  | voteEvent (player : String) (action : Nat) (blockNumber : Nat)
      (txHash : String) (logIndex : Nat) (now : Nat)
  | blockTick (blockNumber : Nat)
deriving DecidableEq, Repr

/-- Dispatch one ingestion event. -/
def processEvent (s : IndexerState) : IndexerEvent → IndexerState
  | .voteEvent player action blockNumber txHash logIndex now =>
    (processVoteEvent s player action blockNumber txHash logIndex now).1
  | .blockTick blockNumber => ⟨s.seenEvents, (onBlock s.aggregator blockNumber).1, s.recentVotes⟩

/-- Process a sequence of ingestion events. -/
def processEvents (s : IndexerState) (es : List IndexerEvent) : IndexerState :=
  es.foldl processEvent s

/-- Model of `maxConcurrentCompressions` from `emulator.ts`. -/
def maxConcurrentCompressions : Nat := 8

/-- The frame-pipeline fields of `GameBoyEmulator`: the in-flight
compression counter and the single-slot latest-wins frame queue.  Raw
frame payloads are opaque here and identified by a `Nat` token. -/
structure PipelineState where
  compressionInFlight : Nat
  queuedFrame : Option Nat
deriving DecidableEq, Repr

/-- Entry of `compressAndEmit`: `this.compressionInFlight++` (the actual
compression then runs asynchronously). -/
def compressAndEmitStart (s : PipelineState) : PipelineState :=
  { s with compressionInFlight := s.compressionInFlight + 1 }

/-- The frame-dispatch branch of the `start` interval: compress the fresh
framebuffer immediately if a slot is free, otherwise queue it, replacing
any older queued frame. -/
def frameTick (s : PipelineState) (frame : Nat) : PipelineState :=
  if s.compressionInFlight < maxConcurrentCompressions then
    compressAndEmitStart s
  else
    { s with queuedFrame := some frame }

/-- The shared tail of `compressAndEmit`'s `.then` and `.catch`
handlers: decrement the in-flight counter, then, if a frame is queued and
a slot is free, dequeue it and start compressing it. -/
def settleCompression (s : PipelineState) : PipelineState :=
  let s1 := { s with compressionInFlight := s.compressionInFlight - 1 }
  match s1.queuedFrame with
  | some _ =>
    if s1.compressionInFlight < maxConcurrentCompressions then
      compressAndEmitStart { s1 with queuedFrame := none }
    else s1
  | none => s1

/-- An observable event of the frame pipeline: an emulator tick producing
a raw frame, a compression completing, or a compression erroring. -/
inductive PipelineEvent where
  | tick (frame : Nat)
  | complete
  | compressError
deriving DecidableEq, Repr

/-- Dispatch one pipeline event.  `complete` (the `.then` handler, which
additionally emits the compressed frame) and `compressError` (the
`.catch` handler, which only logs) act identically on the counters. -/
def stepPipeline (s : PipelineState) : PipelineEvent → PipelineState
  | .tick frame => frameTick s frame
  | .complete => settleCompression s
  | .compressError => settleCompression s

/-- Run the pipeline from the freshly constructed emulator state. -/
def runPipeline (es : List PipelineEvent) : PipelineState :=
  es.foldl stepPipeline ⟨0, none⟩

/-- The number of frames held in the single-slot queue. -/
def queueSize (s : PipelineState) : Nat :=
  match s.queuedFrame with
  | some _ => 1
  | none => 0

/-- The badge bitmap decoded in `getGameState` (bits 0x01..0x80 of the
byte at 0xD356). -/
structure Badges where
  boulder : Bool
  cascade : Bool
  thunder : Bool
  rainbow : Bool
  soul : Bool
  marsh : Bool
  volcano : Bool
  earth : Bool
deriving DecidableEq, Repr

/-- One per-slot HP entry `(current, max)` decoded in `getGameState`. -/
structure HpEntry where
  current : Nat
  max : Nat
deriving DecidableEq, Repr

/-- The `GameState` interface of `emulator.ts`. -/
structure GameState where
  badges : Badges
  badgeCount : Nat
  mapId : Nat
  location : String
  playerX : Nat
  playerY : Nat
  partyCount : Nat
  partySpecies : List Nat
  partyHp : List HpEntry
  partyLevels : List Nat
  money : Nat
deriving DecidableEq, Repr

/-- Model of `memory[addr] || 0`: a read of emulator memory, `0` when out of
bounds (JS `undefined`) or when the stored byte is `0`. -/
def readMem (memory : List Nat) (addr : Nat) : Nat :=
  (memory.get? addr).getD 0

/-- Model of `decodeBCD` from `emulator.ts`. -/
def decodeBCD (byte : Nat) : Nat :=
  ((byte >>> 4) &&& 0x0F) * 10 + (byte &&& 0x0F)

def internalToPokedex : List (Nat × Nat) := [
  (0x01, 112),
  (0x02, 115),
  (0x03, 32),
  (0x04, 35),
  (0x05, 21),
  (0x06, 100),
  (0x07, 34),
  (0x08, 80),
  (0x09, 2),
  (0x0A, 103),
  (0x0B, 108),
  (0x0C, 102),
  (0x0D, 88),
  (0x0E, 94),
  (0x0F, 29),
  (0x10, 31),
  (0x11, 104),
  (0x12, 111),
  (0x13, 131),
  (0x14, 59),
  (0x15, 151),
  (0x16, 130),
  (0x17, 90),
  (0x18, 72),
  (0x19, 92),
  (0x1A, 123),
  (0x1B, 120),
  (0x1C, 9),
  (0x1D, 127),
  (0x1E, 114),
  (0x21, 58),
  (0x22, 95),
  (0x23, 22),
  (0x24, 16),
  (0x25, 79),
  (0x26, 64),
  (0x27, 75),
  (0x28, 113),
  (0x29, 67),
  (0x2A, 122),
  (0x2B, 106),
  (0x2C, 107),
  (0x2D, 24),
  (0x2E, 47),
  (0x2F, 54),
  (0x30, 96),
  (0x31, 76),
  (0x33, 126),
  (0x35, 125),
  (0x36, 82),
  (0x37, 109),
  (0x39, 56),
  (0x3A, 86),
  (0x3B, 50),
  (0x3C, 128),
  (0x40, 83),
  (0x41, 48),
  (0x42, 149),
  (0x46, 84),
  (0x47, 60),
  (0x48, 124),
  (0x49, 146),
  (0x4A, 144),
  (0x4B, 145),
  (0x4C, 132),
  (0x4D, 52),
  (0x4E, 98),
  (0x52, 37),
  (0x53, 38),
  (0x54, 25),
  (0x55, 26),
  (0x58, 147),
  (0x59, 148),
  (0x5A, 140),
  (0x5B, 141),
  (0x5C, 116),
  (0x5D, 117),
  (0x60, 27),
  (0x61, 28),
  (0x62, 138),
  (0x63, 139),
  (0x64, 39),
  (0x65, 40),
  (0x66, 133),
  (0x67, 136),
  (0x68, 135),
  (0x69, 134),
  (0x6A, 66),
  (0x6B, 41),
  (0x6C, 23),
  (0x6D, 46),
  (0x6E, 61),
  (0x6F, 62),
  (0x70, 13),
  (0x71, 14),
  (0x72, 15),
  (0x74, 85),
  (0x75, 57),
  (0x76, 51),
  (0x77, 49),
  (0x78, 87),
  (0x7B, 10),
  (0x7C, 11),
  (0x7D, 12),
  (0x7E, 68),
  (0x80, 55),
  (0x81, 97),
  (0x82, 42),
  (0x83, 150),
  (0x84, 143),
  (0x85, 129),
  (0x88, 89),
  (0x8A, 99),
  (0x8B, 91),
  (0x8D, 101),
  (0x8E, 36),
  (0x8F, 110),
  (0x90, 53),
  (0x91, 105),
  (0x93, 93),
  (0x94, 63),
  (0x95, 65),
  (0x96, 17),
  (0x97, 18),
  (0x98, 121),
  (0x99, 1),
  (0x9A, 3),
  (0x9B, 73),
  (0x9D, 118),
  (0x9E, 119),
  (0xA3, 77),
  (0xA4, 78),
  (0xA5, 19),
  (0xA6, 20),
  (0xA7, 33),
  (0xA8, 30),
  (0xA9, 74),
  (0xAA, 137),
  (0xAB, 142),
  (0xAD, 81),
  (0xB0, 4),
  (0xB1, 7),
  (0xB2, 5),
  (0xB3, 8),
  (0xB4, 6),
  (0xB9, 43),
  (0xBA, 44),
  (0xBB, 45),
  (0xBC, 69),
  (0xBD, 70),
  (0xBE, 71)]

def mapNames : List (Nat × String) := [
  (0, "Pallet Town"),
  (1, "Viridian City"),
  (2, "Pewter City"),
  (3, "Cerulean City"),
  (4, "Lavender Town"),
  (5, "Vermilion City"),
  (6, "Celadon City"),
  (7, "Fuchsia City"),
  (8, "Cinnabar Island"),
  (9, "Indigo Plateau"),
  (10, "Saffron City"),
  (12, "Route 1"),
  (13, "Route 2"),
  (14, "Route 3"),
  (15, "Route 4"),
  (16, "Route 5"),
  (17, "Route 6"),
  (18, "Route 7"),
  (19, "Route 8"),
  (20, "Route 9"),
  (21, "Route 10"),
  (22, "Route 11"),
  (23, "Route 12"),
  (24, "Route 13"),
  (25, "Route 14"),
  (26, "Route 15"),
  (27, "Route 16"),
  (28, "Route 17"),
  (29, "Route 18"),
  (30, "Route 19"),
  (31, "Route 20"),
  (32, "Route 21"),
  (33, "Route 22"),
  (34, "Route 23"),
  (35, "Route 24"),
  (36, "Route 25"),
  (37, "Red\x27s House 1F"),
  (38, "Red\x27s House 2F"),
  (39, "Blue\x27s House"),
  (40, "Oak\x27s Lab"),
  (41, "Viridian Pokemon Center"),
  (42, "Viridian Pokemart"),
  (43, "Viridian School"),
  (44, "Viridian Nickname House"),
  (45, "Viridian Gym"),
  (46, "Diglett\x27s Cave (Route 2)"),
  (47, "Viridian Forest North Gate"),
  (48, "Route 2 Trade House"),
  (49, "Route 2 Gate"),
  (50, "Viridian Forest South Gate"),
  (51, "Viridian Forest"),
  (52, "Pewter Museum 1F"),
  (53, "Pewter Museum 2F"),
  (54, "Pewter Gym"),
  (55, "Pewter Nidoran House"),
  (56, "Pewter Pokemart"),
  (57, "Pewter Speech House"),
  (58, "Pewter Pokemon Center"),
  (59, "Mt. Moon 1F"),
  (60, "Mt. Moon B1F"),
  (61, "Mt. Moon B2F"),
  (62, "Cerulean Trashed House"),
  (63, "Cerulean Trade House"),
  (64, "Cerulean Pokemon Center"),
  (65, "Cerulean Gym"),
  (66, "Bike Shop"),
  (67, "Cerulean Pokemart"),
  (68, "Mt. Moon Pokemon Center"),
  (70, "Route 5 Gate"),
  (71, "Underground Path (Route 5)"),
  (72, "Daycare"),
  (73, "Route 6 Gate"),
  (74, "Underground Path (Route 6)"),
  (76, "Route 7 Gate"),
  (77, "Underground Path (Route 7)"),
  (79, "Route 8 Gate"),
  (80, "Underground Path (Route 8)"),
  (81, "Rock Tunnel Pokemon Center"),
  (82, "Rock Tunnel 1F"),
  (83, "Power Plant"),
  (84, "Route 11 Gate 1F"),
  (85, "Diglett\x27s Cave (Route 11)"),
  (86, "Route 11 Gate 2F"),
  (87, "Route 12 Gate 1F"),
  (88, "Bill\x27s House"),
  (89, "Vermilion Pokemon Center"),
  (90, "Pokemon Fan Club"),
  (91, "Vermilion Pokemart"),
  (92, "Vermilion Gym"),
  (93, "Vermilion Pidgey House"),
  (94, "Vermilion Dock"),
  (95, "S.S. Anne 1F"),
  (96, "S.S. Anne 2F"),
  (97, "S.S. Anne 3F"),
  (98, "S.S. Anne B1F"),
  (99, "S.S. Anne Bow"),
  (100, "S.S. Anne Kitchen"),
  (101, "S.S. Anne Captain\x27s Room"),
  (102, "S.S. Anne 1F Rooms"),
  (103, "S.S. Anne 2F Rooms"),
  (104, "S.S. Anne B1F Rooms"),
  (108, "Victory Road 1F"),
  (113, "Lance\x27s Room"),
  (118, "Hall of Fame"),
  (119, "Underground Path (N-S)"),
  (120, "Champion\x27s Room"),
  (121, "Underground Path (W-E)"),
  (122, "Celadon Dept Store 1F"),
  (123, "Celadon Dept Store 2F"),
  (124, "Celadon Dept Store 3F"),
  (125, "Celadon Dept Store 4F"),
  (126, "Celadon Dept Store Roof"),
  (127, "Celadon Dept Store Elevator"),
  (128, "Celadon Mansion 1F"),
  (129, "Celadon Mansion 2F"),
  (130, "Celadon Mansion 3F"),
  (131, "Celadon Mansion Roof"),
  (132, "Celadon Mansion Roof House"),
  (133, "Celadon Pokemon Center"),
  (134, "Celadon Gym"),
  (135, "Game Corner"),
  (136, "Celadon Dept Store 5F"),
  (137, "Game Corner Prize Room"),
  (138, "Celadon Diner"),
  (139, "Celadon Chief House"),
  (140, "Celadon Hotel"),
  (141, "Lavender Pokemon Center"),
  (142, "Pokemon Tower 1F"),
  (143, "Pokemon Tower 2F"),
  (144, "Pokemon Tower 3F"),
  (145, "Pokemon Tower 4F"),
  (146, "Pokemon Tower 5F"),
  (147, "Pokemon Tower 6F"),
  (148, "Pokemon Tower 7F"),
  (149, "Mr. Fuji\x27s House"),
  (150, "Lavender Pokemart"),
  (151, "Lavender Cubone House"),
  (152, "Fuchsia Pokemart"),
  (153, "Fuchsia Bill\x27s Grandpa House"),
  (154, "Fuchsia Pokemon Center"),
  (155, "Warden\x27s House"),
  (156, "Safari Zone Gate"),
  (157, "Fuchsia Gym"),
  (158, "Fuchsia Meeting Room"),
  (159, "Seafoam Islands B1F"),
  (160, "Seafoam Islands B2F"),
  (161, "Seafoam Islands B3F"),
  (162, "Seafoam Islands B4F"),
  (163, "Vermilion Old Rod House"),
  (164, "Fuchsia Good Rod House"),
  (165, "Pokemon Mansion 1F"),
  (166, "Cinnabar Gym"),
  (167, "Cinnabar Lab"),
  (168, "Cinnabar Lab Trade Room"),
  (169, "Cinnabar Lab Metronome Room"),
  (170, "Cinnabar Lab Fossil Room"),
  (171, "Cinnabar Pokemon Center"),
  (172, "Cinnabar Pokemart"),
  (174, "Indigo Plateau Lobby"),
  (175, "Copycat\x27s House 1F"),
  (176, "Copycat\x27s House 2F"),
  (177, "Fighting Dojo"),
  (178, "Saffron Gym"),
  (179, "Saffron Pidgey House"),
  (180, "Saffron Pokemart"),
  (181, "Silph Co 1F"),
  (182, "Saffron Pokemon Center"),
  (183, "Mr. Psychic\x27s House"),
  (184, "Route 15 Gate 1F"),
  (185, "Route 15 Gate 2F"),
  (186, "Route 16 Gate 1F"),
  (187, "Route 16 Gate 2F"),
  (188, "Route 16 Fly House"),
  (189, "Route 12 Super Rod House"),
  (190, "Route 18 Gate 1F"),
  (191, "Route 18 Gate 2F"),
  (192, "Seafoam Islands 1F"),
  (193, "Route 22 Gate"),
  (194, "Victory Road 2F"),
  (195, "Route 12 Gate 2F"),
  (196, "Vermilion Trade House"),
  (197, "Diglett\x27s Cave"),
  (198, "Victory Road 3F"),
  (199, "Rocket Hideout B1F"),
  (200, "Rocket Hideout B2F"),
  (201, "Rocket Hideout B3F"),
  (202, "Rocket Hideout B4F"),
  (203, "Rocket Hideout Elevator"),
  (207, "Silph Co 2F"),
  (208, "Silph Co 3F"),
  (209, "Silph Co 4F"),
  (210, "Silph Co 5F"),
  (211, "Silph Co 6F"),
  (212, "Silph Co 7F"),
  (213, "Silph Co 8F"),
  (214, "Pokemon Mansion 2F"),
  (215, "Pokemon Mansion 3F"),
  (216, "Pokemon Mansion B1F"),
  (217, "Safari Zone East"),
  (218, "Safari Zone North"),
  (219, "Safari Zone West"),
  (220, "Safari Zone Center"),
  (221, "Safari Zone Center Rest House"),
  (222, "Safari Zone Secret House"),
  (223, "Safari Zone West Rest House"),
  (224, "Safari Zone East Rest House"),
  (225, "Safari Zone North Rest House"),
  (226, "Cerulean Cave 2F"),
  (227, "Cerulean Cave B1F"),
  (228, "Cerulean Cave 1F"),
  (229, "Name Rater\x27s House"),
  (230, "Cerulean Badge House"),
  (232, "Rock Tunnel B1F"),
  (233, "Silph Co 9F"),
  (234, "Silph Co 10F"),
  (235, "Silph Co 11F"),
  (236, "Silph Co Elevator"),
  (239, "Trade Center"),
  (240, "Colosseum"),
  (245, "Lorelei\x27s Room"),
  (246, "Bruno\x27s Room"),
  (247, "Agatha\x27s Room")]

/-- Model of `GameBoyEmulator.getGameState`.  The input is `none` when
`this.gameboy` is `null` (uninitialized), `some none` when
`getMemory()` returned nothing, and `some (some memory)` otherwise; every
path the source exits through `return null` (including its `catch`) is a
`none` result.  Reads cannot fail beyond yielding `0`, so the function is
total by construction. -/
def getGameState : Option (Option (List Nat)) → Option GameState
  | none => none
  | some none => none
  | some (some memory) =>
    if memory.length < 0xD400 then none
    else
      let badgeByte := readMem memory 0xD356
      let badges : Badges :=
        ⟨decide (badgeByte &&& 0x01 ≠ 0), decide (badgeByte &&& 0x02 ≠ 0),
         decide (badgeByte &&& 0x04 ≠ 0), decide (badgeByte &&& 0x08 ≠ 0),
         decide (badgeByte &&& 0x10 ≠ 0), decide (badgeByte &&& 0x20 ≠ 0),
         decide (badgeByte &&& 0x40 ≠ 0), decide (badgeByte &&& 0x80 ≠ 0)⟩
      let badgeCount :=
        (([badges.boulder, badges.cascade, badges.thunder, badges.rainbow,
           badges.soul, badges.marsh, badges.volcano, badges.earth].filter
             (fun b => b)).length)
      let mapId := readMem memory 0xD35E
      let location := (mapNames.lookup mapId).getD ("Unknown (" ++ toString mapId ++ ")")
      let playerY := readMem memory 0xD361
      let playerX := readMem memory 0xD362
      let partyCount := min (readMem memory 0xD163) 6
      let partySpecies := (List.range partyCount).map fun i =>
        (internalToPokedex.lookup (readMem memory (0xD164 + i))).getD 0
      let partyHp := (List.range partyCount).map fun i =>
        HpEntry.mk
          ((readMem memory (0xD16B + i * 0x2C + 0x01)) <<< 8 |||
            readMem memory (0xD16B + i * 0x2C + 0x02))
          ((readMem memory (0xD16B + i * 0x2C + 0x22)) <<< 8 |||
            readMem memory (0xD16B + i * 0x2C + 0x23))
      let partyLevels := (List.range partyCount).map fun i =>
        readMem memory (0xD16B + i * 0x2C + 0x21)
      let money :=
        decodeBCD (readMem memory 0xD347) * 10000 +
          decodeBCD (readMem memory 0xD348) * 100 +
          decodeBCD (readMem memory 0xD349)
      some ⟨badges, badgeCount, mapId, location, playerX, playerY,
            partyCount, partySpecies, partyHp, partyLevels, money⟩

/-- Spec-side: the number of set bits in a byte. -/
def specSetBits (b : Nat) : Nat :=
  ((List.range 8).filter (fun i => b.testBit i)).length

/-- The body of the game-state broadcast interval of `index.ts`: given the
cached state and the fresh `getGameState()` sample, return the new cached
state and whether the sample was broadcast. -/
def sampleStep (cachedGameState : Option GameState) (sample : Option GameState) :
    Option GameState × Bool :=
  match sample with
  | none => (cachedGameState, false)
  | some gameState =>
    let hpChanged : Bool :=
      match cachedGameState with
      | none => true
      | some cg =>
        gameState.partyHp.enum.any fun p =>
          match cg.partyHp.get? p.1 with
          | none => true
          | some c => c.current != p.2.current || c.max != p.2.max
    let stateChanged : Bool :=
      match cachedGameState with
      | none => true
      | some cg =>
        cg.location != gameState.location ||
        cg.badgeCount != gameState.badgeCount ||
        cg.partyCount != gameState.partyCount ||
        cg.money != gameState.money ||
        hpChanged
    if stateChanged then (some gameState, true) else (cachedGameState, false)

/-- Run the sampler over a sequence of samples, counting broadcasts. -/
def runSampler (cached : Option GameState) (samples : List (Option GameState)) :
    Option GameState × Nat :=
  samples.foldl
    (fun p sample =>
      let q := sampleStep p.1 sample
      (q.1, p.2 + (if q.2 then 1 else 0)))
    (cached, 0)

/-- The HP-comparison loop of the game-state broadcast interval
(`gameState.partyHp.some(...)`), named for use in lemma statements. -/
def hpAnyDiffers (cg gs : GameState) : Bool :=
  gs.partyHp.enum.any fun p =>
    match cg.partyHp.get? p.1 with
    | none => true
    | some c => c.current != p.2.current || c.max != p.2.max

/-- Spec-side: two snapshots differ semantically — in location, badge
count, party count, money, or any per-slot current/max HP. -/
def specDiffers (old new : GameState) : Prop :=
  old.location ≠ new.location ∨ old.badgeCount ≠ new.badgeCount ∨
  old.partyCount ≠ new.partyCount ∨ old.money ≠ new.money ∨
  old.partyHp ≠ new.partyHp

/-- Model of the own keys of the `BUTTON_MAP` object literal from
`emulator.ts`, keyed by button name.  The key codes come from the
external serverboy `KEYMAP` (a black box); their values are irrelevant
to every claim, only which names are mapped matters. -/
def BUTTON_MAP : List (String × Nat) :=
  [("RIGHT", 0), ("LEFT", 1), ("UP", 2), ("DOWN", 3),
   ("A", 4), ("B", 5), ("SELECT", 6), ("START", 7)]

/-- The property names that `BUTTON_MAP`, a plain JS object literal,
inherits from `Object.prototype` (ECMA-262: `constructor`, `toString`,
`toLocaleString`, `valueOf`, `hasOwnProperty`, `isPrototypeOf`,
`propertyIsEnumerable`, plus the Annex-B accessors and `__proto__`).
A bracket lookup `BUTTON_MAP[name]` at one of these names resolves
through the prototype chain to a non-`undefined` value (a function, or
the prototype object itself for `__proto__`). -/
def OBJECT_PROTOTYPE_KEYS : List String :=
  ["constructor", "toString", "toLocaleString", "valueOf",
   "hasOwnProperty", "isPrototypeOf", "propertyIsEnumerable",
   "__defineGetter__", "__defineSetter__", "__lookupGetter__",
   "__lookupSetter__", "__proto__"]

/-- Model of the JS bracket lookup `BUTTON_MAP[button]`: own keys first,
then the prototype chain.  Inherited `Object.prototype` properties are
not `undefined`; their actual values (functions, the prototype object)
never flow anywhere a claim observes, so they are represented by an
opaque marker code. -/
def buttonMapGet (button : String) : Option Nat :=
  match BUTTON_MAP.lookup button with
  | some keyCode => some keyCode
  | none => if button ∈ OBJECT_PROTOTYPE_KEYS then some 0 else none

/-- The pending-press fields of `GameBoyEmulator` relevant to
`pressButton`; `gameboy` is `none` while uninitialized. -/
structure DriverState where
  gameboy : Option Unit
  pendingButton : Option String
  buttonFramesRemaining : Nat
deriving DecidableEq, Repr

/-- Model of `GameBoyEmulator.pressButton`.  The guard is the source's
`BUTTON_MAP[button] === undefined` check, which a prototype-inherited
property name slips through. -/
def pressButton (s : DriverState) (button : String) (durationFrames : Nat) :
    DriverState :=
  match s.gameboy with
  | none => s
  | some _ =>
    match buttonMapGet button with
    | none => s
    | some _ =>
      { s with pendingButton := some button,
               buttonFramesRemaining := durationFrames }



theorem runMax_cons (f : Action → Nat) (a : Action) (l : List Action) (m : Nat) :
    runMax f (a :: l) m = runMax f l (if f a > m then f a else m) := rfl

theorem le_runMax_self (f : Action → Nat) :
    ∀ (l : List Action) (m : Nat), m ≤ runMax f l m
  | [], m => Nat.le_refl m
  | a :: l, m => by
    rw [runMax_cons]
    by_cases hfa : f a > m
    · rw [if_pos hfa]
      exact Nat.le_trans (Nat.le_of_lt hfa) (le_runMax_self f l (f a))
    · rw [if_neg hfa]
      exact le_runMax_self f l m

theorem le_runMax_of_mem (f : Action → Nat) :
    ∀ (l : List Action) (b : Action) (m : Nat), b ∈ l → f b ≤ runMax f l m
  | a :: l, b, m, hmem => by
    rw [runMax_cons]
    rcases List.mem_cons.mp hmem with rfl | hb
    · have hle : f b ≤ (if f b > m then f b else m) := by
        by_cases h : f b > m
        · rw [if_pos h]
        · rw [if_neg h]; omega
      exact Nat.le_trans hle (le_runMax_self f l _)
    · exact le_runMax_of_mem f l b _ hb

theorem runMax_eq_or_mem (f : Action → Nat) :
    ∀ (l : List Action) (m : Nat), runMax f l m = m ∨ ∃ a ∈ l, runMax f l m = f a
  | [], _ => Or.inl rfl
  | a :: l, m => by
    rw [runMax_cons]
    rcases runMax_eq_or_mem f l (if f a > m then f a else m) with h | ⟨b, hb, hbe⟩
    · by_cases hfa : f a > m
      · exact Or.inr ⟨a, List.mem_cons_self a l, by rw [h, if_pos hfa]⟩
      · rw [h, if_neg hfa]; exact Or.inl rfl
    · exact Or.inr ⟨b, List.mem_cons_of_mem a hb, hbe⟩

theorem winStep_foldl_snd (f : Action → Nat) :
    ∀ (l : List Action) (w : Action) (m : Nat),
      (l.foldl (winStep f) (w, m)).2 = runMax f l m
  | [], _, _ => rfl
  | a :: l, w, m => by
    rw [List.foldl_cons, runMax_cons]
    by_cases hfa : f a > m
    · rw [show winStep f (w, m) a = (a, f a) by simp [winStep, hfa], if_pos hfa]
      exact winStep_foldl_snd f l a (f a)
    · rw [show winStep f (w, m) a = (w, m) by simp [winStep, hfa], if_neg hfa]
      exact winStep_foldl_snd f l w m

theorem winStep_foldl_fst (f : Action → Nat) :
    ∀ (l : List Action) (w : Action) (m : Nat),
      (l.foldl (winStep f) (w, m)).1 =
        if runMax f l m > m then
          (l.find? fun a => decide (runMax f l m ≤ f a)).getD w
        else w
  | [], w, m => by simp [runMax]
  | a :: l, w, m => by
    rw [List.foldl_cons, runMax_cons]
    by_cases hfa : f a > m
    · rw [show winStep f (w, m) a = (a, f a) by simp [winStep, hfa], if_pos hfa]
      rw [winStep_foldl_fst f l a (f a)]
      have hMfa : f a ≤ runMax f l (f a) := le_runMax_self f l (f a)
      have hRHS : runMax f l (f a) > m := Nat.lt_of_lt_of_le hfa hMfa
      rw [if_pos hRHS]
      by_cases h2 : runMax f l (f a) > f a
      · rw [if_pos h2]
        have hhead : (decide (runMax f l (f a) ≤ f a)) = false := by
          simp only [decide_eq_false_iff_not]; omega
        rw [List.find?_cons, hhead]
        rcases runMax_eq_or_mem f l (f a) with he | ⟨b, hb, hbe⟩
        · omega
        · have hs : (l.find? fun x => decide (runMax f l (f a) ≤ f x)).isSome :=
            List.find?_isSome.mpr ⟨b, hb, by simp [hbe]⟩
          obtain ⟨x, hx⟩ := Option.isSome_iff_exists.mp hs
          rw [hx]
          rfl
      · rw [if_neg h2]
        have hM : runMax f l (f a) = f a := Nat.le_antisymm (Nat.not_lt.mp h2) hMfa
        have hhead : (decide (runMax f l (f a) ≤ f a)) = true := by
          simp only [decide_eq_true_eq]; omega
        rw [List.find?_cons, hhead]
        rfl
    · rw [show winStep f (w, m) a = (w, m) by simp [winStep, hfa], if_neg hfa]
      rw [winStep_foldl_fst f l w m]
      by_cases hc : runMax f l m > m
      · rw [if_pos hc, if_pos hc]
        have hhead : (decide (runMax f l m ≤ f a)) = false := by
          simp only [decide_eq_false_iff_not]; omega
        rw [List.find?_cons, hhead]
      · rw [if_neg hc, if_neg hc]

theorem electWinner_fst_eq (c : VoteCounts) : (electWinner c).1 = firstArgmax c := by
  unfold electWinner firstArgmax maxTally
  rw [winStep_foldl_fst]
  by_cases h : runMax c.get Actions 0 > 0
  · rw [if_pos h]
  · rw [if_neg h]
    have h0 : runMax c.get Actions 0 = 0 := by omega
    rw [h0]
    simp [Actions, List.find?]

theorem get_le_maxTally (c : VoteCounts) (a : Action) : c.get a ≤ maxTally c :=
  le_runMax_of_mem c.get Actions a 0 (by cases a <;> decide)

theorem get_firstArgmax (c : VoteCounts) : c.get (firstArgmax c) = maxTally c := by
  unfold firstArgmax
  rcases runMax_eq_or_mem c.get Actions 0 with h | ⟨b, hb, hbe⟩
  · have hfind : (Actions.find? fun a => decide (maxTally c ≤ c.get a)) = some Action.UP := by
      unfold maxTally
      rw [h]
      simp [Actions, List.find?]
    rw [hfind]
    have h1 := get_le_maxTally c Action.UP
    unfold maxTally at h1 ⊢
    simp only [Option.getD_some]
    omega
  · have hsome : (Actions.find? fun a => decide (maxTally c ≤ c.get a)).isSome :=
      List.find?_isSome.mpr ⟨b, hb, by simp [maxTally, hbe]⟩
    obtain ⟨x, hx⟩ := Option.isSome_iff_exists.mp hsome
    rw [hx]
    have h1 := List.find?_some hx
    have h2 := get_le_maxTally c x
    simp only [decide_eq_true_eq] at h1
    simp only [Option.getD_some]
    omega



theorem votesLookup_mem :
    ∀ (m : List (Nat × List Vote)) (k : Nat) (vs : List Vote),
      votesLookup m k = some vs → (k, vs) ∈ m
  | (k', vs') :: rest, k, vs, h => by
    rw [votesLookup] at h
    by_cases hk : k' = k
    · rw [if_pos hk] at h
      cases h
      exact hk ▸ List.mem_cons_self _ _
    · rw [if_neg hk] at h
      exact List.mem_cons_of_mem _ (votesLookup_mem rest k vs h)

theorem mem_votesErase :
    ∀ (m : List (Nat × List Vote)) (k : Nat) (p : Nat × List Vote),
      p ∈ votesErase m k → p ∈ m
  | (k', vs') :: rest, k, p, h => by
    rw [votesErase] at h
    by_cases hk : k' = k
    · rw [if_pos hk] at h
      exact List.mem_cons_of_mem _ h
    · rw [if_neg hk] at h
      rcases List.mem_cons.mp h with rfl | h2
      · exact List.mem_cons_self _ _
      · exact List.mem_cons_of_mem _ (mem_votesErase rest k p h2)

theorem mem_votesSet :
    ∀ (m : List (Nat × List Vote)) (k : Nat) (nvs : List Vote) (p : Nat × List Vote),
      p ∈ votesSet m k nvs → p ∈ m ∨ p = (k, nvs)
  | [], k, nvs, p, h => by
    rw [votesSet] at h
    rcases List.mem_cons.mp h with rfl | h2
    · exact Or.inr rfl
    · cases h2
  | (k', vs') :: rest, k, nvs, p, h => by
    rw [votesSet] at h
    by_cases hk : k' = k
    · rw [if_pos hk] at h
      rcases List.mem_cons.mp h with rfl | h2
      · exact Or.inr rfl
      · exact Or.inl (List.mem_cons_of_mem _ h2)
    · rw [if_neg hk] at h
      rcases List.mem_cons.mp h with rfl | h2
      · exact Or.inl (List.mem_cons_self _ _)
      · rcases mem_votesSet rest k nvs p h2 with h3 | h3
        · exact Or.inl (List.mem_cons_of_mem _ h3)
        · exact Or.inr h3

theorem mem_votesPush (m : List (Nat × List Vote)) (k : Nat) (v : Vote)
    (p : Nat × List Vote) (h : p ∈ votesPush m k v) :
    p ∈ m ∨ (∃ vs, votesLookup m k = some vs ∧ p = (k, vs ++ [v])) ∨ p = (k, [v]) := by
  rw [votesPush] at h
  rcases hlk : votesLookup m k with _ | vs
  · rw [hlk] at h
    rcases mem_votesSet m k [v] p h with h2 | h2
    · exact Or.inl h2
    · exact Or.inr (Or.inr h2)
  · rw [hlk] at h
    rcases mem_votesSet m k (vs ++ [v]) p h with h2 | h2
    · exact Or.inl h2
    · exact Or.inr (Or.inl ⟨vs, rfl, h2⟩)

theorem VotesWF_erase (W : Nat) (P : Vote → Prop) (m : List (Nat × List Vote))
    (k : Nat) (h : VotesWF W P m) : VotesWF W P (votesErase m k) :=
  fun p hp => h p (mem_votesErase m k p hp)

theorem AllEmptyAt_erase (m : List (Nat × List Vote)) (j k : Nat)
    (h : AllEmptyAt m k) : AllEmptyAt (votesErase m j) k :=
  fun vs hvs => h vs (mem_votesErase m j _ hvs)

theorem VotesWF_push (W : Nat) (P : Vote → Prop) (m : List (Nat × List Vote))
    (v : Vote) (h : VotesWF W P m) (hP : P v) :
    VotesWF W P (votesPush m (v.blockNumber / W) v) := by
  intro p hp
  rcases mem_votesPush m (v.blockNumber / W) v p hp with h2 | ⟨vs, hvs, rfl⟩ | rfl
  · exact h p h2
  · intro u hu
    rcases List.mem_append.mp hu with hu2 | hu2
    · exact h _ (votesLookup_mem m _ vs hvs) u hu2
    · rcases List.mem_singleton.mp hu2 with rfl
      exact ⟨hP, rfl⟩
  · intro u hu
    rcases List.mem_singleton.mp hu with rfl
    exact ⟨hP, rfl⟩

theorem finalizeWindow_fst (s : AggState) (w : Nat) :
    (finalizeWindow s w).1 = { s with votes := votesErase s.votes w } := by
  rw [finalizeWindow]
  split
  · rfl
  · rfl

theorem finalizeWindow_snd_eq (s : AggState) (w : Nat) (r : WindowResult)
    (h : (finalizeWindow s w).2 = some r) :
    ∃ vs, votesLookup s.votes w = some vs ∧ vs ≠ [] ∧
      r = ⟨w, w * s.windowSize, (w + 1) * s.windowSize - 1,
           (electWinner (tally vs)).1, tally vs, vs.length⟩ := by
  rw [finalizeWindow] at h
  rcases hlk : votesLookup s.votes w with _ | vs
  · rw [hlk] at h
    simp at h
  · rw [hlk] at h
    simp only [Option.getD_some] at h
    by_cases hlen : vs.length = 0
    · rw [if_pos hlen] at h
      cases h
    · rw [if_neg hlen] at h
      simp only [Option.some.injEq] at h
      exact ⟨vs, rfl, fun hnil => hlen (by rw [hnil]; rfl), h.symm⟩



theorem finalizeCount_fst_windowSize :
    ∀ (n : Nat) (s : AggState) (lo : Nat),
      (finalizeCount s lo n).1.windowSize = s.windowSize
  | 0, _, _ => rfl
  | n + 1, s, lo => by
    rw [finalizeCount, finalizeWindow_fst]
    exact finalizeCount_fst_windowSize n _ (lo + 1)

theorem finalizeCount_fst_currentWindow :
    ∀ (n : Nat) (s : AggState) (lo : Nat),
      (finalizeCount s lo n).1.currentWindow = s.currentWindow
  | 0, _, _ => rfl
  | n + 1, s, lo => by
    rw [finalizeCount, finalizeWindow_fst]
    exact finalizeCount_fst_currentWindow n _ (lo + 1)

theorem finalizeCount_VotesWF (P : Vote → Prop) :
    ∀ (n : Nat) (s : AggState) (lo : Nat),
      VotesWF s.windowSize P s.votes →
      VotesWF s.windowSize P (finalizeCount s lo n).1.votes
  | 0, _, _, h => h
  | n + 1, s, lo, h => by
    rw [finalizeCount, finalizeWindow_fst]
    exact finalizeCount_VotesWF P n _ (lo + 1) (VotesWF_erase _ P _ lo h)

theorem finalizeCount_AllEmptyAt (k : Nat) :
    ∀ (n : Nat) (s : AggState) (lo : Nat),
      AllEmptyAt s.votes k →
      AllEmptyAt (finalizeCount s lo n).1.votes k
  | 0, _, _, h => h
  | n + 1, s, lo, h => by
    rw [finalizeCount, finalizeWindow_fst]
    exact finalizeCount_AllEmptyAt k n _ (lo + 1) (AllEmptyAt_erase _ lo k h)

theorem finalizeWindow_ResultOK (P : Vote → Prop) (s : AggState) (w : Nat)
    (r : WindowResult) (hWF : VotesWF s.windowSize P s.votes)
    (h : (finalizeWindow s w).2 = some r) :
    ResultOK s.windowSize P r ∧ r.windowId = w := by
  obtain ⟨vs, hlk, hne, rfl⟩ := finalizeWindow_snd_eq s w r h
  refine ⟨⟨vs, hne, ?_, rfl, rfl, rfl, rfl, rfl⟩, rfl⟩
  exact hWF (w, vs) (votesLookup_mem s.votes w vs hlk)

theorem finalizeCount_results (P : Vote → Prop) :
    ∀ (n : Nat) (s : AggState) (lo : Nat),
      VotesWF s.windowSize P s.votes →
      ∀ r ∈ (finalizeCount s lo n).2,
        ResultOK s.windowSize P r ∧ lo ≤ r.windowId ∧ r.windowId < lo + n
  | 0, _, _, _, _, hr => by cases hr
  | n + 1, s, lo, hWF, r, hr => by
    rw [finalizeCount] at hr
    rcases List.mem_append.mp hr with hr1 | hr2
    · have hsome : (finalizeWindow s lo).2 = some r := by
        rcases hflw : (finalizeWindow s lo).2 with _ | x
        · rw [hflw] at hr1; cases hr1
        · rw [hflw] at hr1
          rcases List.mem_singleton.mp hr1 with rfl
          rfl
      obtain ⟨hROK, hwid⟩ := finalizeWindow_ResultOK P s lo r hWF hsome
      exact ⟨hROK, by omega, by omega⟩
    · have h3 := finalizeCount_results P n (finalizeWindow s lo).1 (lo + 1)
      rw [finalizeWindow_fst] at h3
      have h4 := h3 (VotesWF_erase _ P _ lo hWF) r (by rw [finalizeWindow_fst] at hr2; exact hr2)
      exact ⟨h4.1, by omega, by omega⟩

theorem finalizeCount_empty (k : Nat) :
    ∀ (n : Nat) (s : AggState) (lo : Nat),
      AllEmptyAt s.votes k →
      ∀ r ∈ (finalizeCount s lo n).2, r.windowId ≠ k
  | 0, _, _, _, _, hr => by cases hr
  | n + 1, s, lo, hk, r, hr => by
    rw [finalizeCount] at hr
    rcases List.mem_append.mp hr with hr1 | hr2
    · have hsome : (finalizeWindow s lo).2 = some r := by
        rcases hflw : (finalizeWindow s lo).2 with _ | x
        · rw [hflw] at hr1; cases hr1
        · rw [hflw] at hr1
          rcases List.mem_singleton.mp hr1 with rfl
          rfl
      obtain ⟨vs, hlk, hne, rfl⟩ := finalizeWindow_snd_eq s lo r hsome
      intro hlo
      simp only at hlo
      subst hlo
      exact hne (hk vs (votesLookup_mem s.votes _ vs hlk))
    · have h3 := finalizeCount_empty k n (finalizeWindow s lo).1 (lo + 1)
      rw [finalizeWindow_fst] at h3
      exact h3 (AllEmptyAt_erase _ lo k hk) r (by rw [finalizeWindow_fst] at hr2; exact hr2)



theorem addVote_spec (P : Vote → Prop) (s : AggState) (pl : String) (ac b : Nat)
    (hWF : VotesWF s.windowSize P s.votes) (hP : P ⟨pl, ac, b⟩) :
    VotesWF s.windowSize P (addVote s pl ac b).1.votes ∧
    (addVote s pl ac b).1.windowSize = s.windowSize ∧
    s.currentWindow ≤ (addVote s pl ac b).1.currentWindow ∧
    ∀ r ∈ (addVote s pl ac b).2,
      ResultOK s.windowSize P r ∧
      s.currentWindow ≤ (r.windowId : Int) ∧
      (r.windowId + 1) * s.windowSize ≤ b := by
  simp only [addVote, getWindowId]
  by_cases h1 : s.currentWindow = -1
  · rw [if_pos h1]
    have hc : ¬((b / s.windowSize : Nat) : Int) > ({ s with currentWindow := ((b / s.windowSize : Nat) : Int) }).currentWindow := by
      show ¬((b / s.windowSize : Nat) : Int) > ((b / s.windowSize : Nat) : Int)
      omega
    rw [if_neg hc]
    refine ⟨VotesWF_push s.windowSize P s.votes ⟨pl, ac, b⟩ hWF hP, rfl,
      by show s.currentWindow ≤ ((b / s.windowSize : Nat) : Int)
         have hnn : (0:Int) ≤ ((b / s.windowSize : Nat) : Int) := Int.natCast_nonneg _
         omega, ?_⟩
    intro r hr
    cases hr
  · rw [if_neg h1]
    by_cases h2 : ((b / s.windowSize : Nat) : Int) > s.currentWindow
    · rw [if_pos h2]
      have hws := finalizeCount_fst_windowSize (b / s.windowSize - s.currentWindow.toNat) s s.currentWindow.toNat
      have hWF2 := finalizeCount_VotesWF P (b / s.windowSize - s.currentWindow.toNat) s s.currentWindow.toNat hWF
      have hres := finalizeCount_results P (b / s.windowSize - s.currentWindow.toNat) s s.currentWindow.toNat hWF
      refine ⟨?_, ?_, ?_, ?_⟩
      · simp only [finalizeRange]
        have := VotesWF_push s.windowSize P
          (finalizeCount s s.currentWindow.toNat (b / s.windowSize - s.currentWindow.toNat)).1.votes
          ⟨pl, ac, b⟩ hWF2 hP
        exact this
      · simp only [finalizeRange]
        exact hws
      · show s.currentWindow ≤ ((b / s.windowSize : Nat) : Int)
        omega
      · simp only [finalizeRange]
        intro r hr
        obtain ⟨hROK, hlo, hhi⟩ := hres r hr
        refine ⟨hROK, by omega, ?_⟩
        have hmul : (r.windowId + 1) * s.windowSize ≤ (b / s.windowSize) * s.windowSize :=
          Nat.mul_le_mul_right s.windowSize (by omega)
        exact Nat.le_trans hmul (Nat.div_mul_le_self b s.windowSize)
    · rw [if_neg h2]
      refine ⟨VotesWF_push s.windowSize P s.votes ⟨pl, ac, b⟩ hWF hP, rfl, le_refl _, ?_⟩
      intro r hr
      cases hr

theorem onBlock_spec (P : Vote → Prop) (s : AggState) (b : Nat)
    (hWF : VotesWF s.windowSize P s.votes) :
    VotesWF s.windowSize P (onBlock s b).1.votes ∧
    (onBlock s b).1.windowSize = s.windowSize ∧
    s.currentWindow ≤ (onBlock s b).1.currentWindow ∧
    ∀ r ∈ (onBlock s b).2,
      ResultOK s.windowSize P r ∧
      s.currentWindow ≤ (r.windowId : Int) ∧
      (r.windowId + 1) * s.windowSize ≤ b := by
  simp only [onBlock, getWindowId]
  by_cases h1 : s.currentWindow = -1
  · rw [if_pos h1]
    refine ⟨hWF, rfl,
      by show s.currentWindow ≤ ((b / s.windowSize : Nat) : Int)
         have hnn : (0:Int) ≤ ((b / s.windowSize : Nat) : Int) := Int.natCast_nonneg _
         omega, ?_⟩
    intro r hr
    cases hr
  · rw [if_neg h1]
    by_cases h2 : ((b / s.windowSize : Nat) : Int) > s.currentWindow
    · rw [if_pos h2]
      have hws := finalizeCount_fst_windowSize (b / s.windowSize - s.currentWindow.toNat) s s.currentWindow.toNat
      have hWF2 := finalizeCount_VotesWF P (b / s.windowSize - s.currentWindow.toNat) s s.currentWindow.toNat hWF
      have hres := finalizeCount_results P (b / s.windowSize - s.currentWindow.toNat) s s.currentWindow.toNat hWF
      refine ⟨?_, ?_, ?_, ?_⟩
      · simp only [finalizeRange]
        exact hWF2
      · simp only [finalizeRange]
        exact hws
      · show s.currentWindow ≤ ((b / s.windowSize : Nat) : Int)
        omega
      · simp only [finalizeRange]
        intro r hr
        obtain ⟨hROK, hlo, hhi⟩ := hres r hr
        refine ⟨hROK, by omega, ?_⟩
        have hmul : (r.windowId + 1) * s.windowSize ≤ (b / s.windowSize) * s.windowSize :=
          Nat.mul_le_mul_right s.windowSize (by omega)
        exact Nat.le_trans hmul (Nat.div_mul_le_self b s.windowSize)
    · rw [if_neg h2]
      refine ⟨hWF, rfl, le_refl _, ?_⟩
      intro r hr
      cases hr

theorem forceFinalize_spec (P : Vote → Prop) (s : AggState)
    (hWF : VotesWF s.windowSize P s.votes) :
    VotesWF s.windowSize P (forceFinalize s).1.votes ∧
    (forceFinalize s).1.windowSize = s.windowSize ∧
    s.currentWindow ≤ (forceFinalize s).1.currentWindow ∧
    ∀ r ∈ (forceFinalize s).2,
      ResultOK s.windowSize P r ∧
      s.currentWindow ≤ (r.windowId : Int) := by
  simp only [forceFinalize]
  by_cases h1 : s.currentWindow ≥ 0
  · rw [if_pos h1]
    refine ⟨?_, ?_, by show s.currentWindow ≤ s.currentWindow + 1; omega, ?_⟩
    · rw [finalizeWindow_fst]
      exact VotesWF_erase _ P _ _ hWF
    · rw [finalizeWindow_fst]
    · intro r hr
      have hsome : (finalizeWindow s s.currentWindow.toNat).2 = some r := by
        rcases hflw : (finalizeWindow s s.currentWindow.toNat).2 with _ | x
        · rw [hflw] at hr; cases hr
        · rw [hflw] at hr
          rcases List.mem_singleton.mp hr with rfl
          rfl
      obtain ⟨hROK, hwid⟩ := finalizeWindow_ResultOK P s s.currentWindow.toNat r hWF hsome
      refine ⟨hROK, by omega⟩
  · rw [if_neg h1]
    refine ⟨hWF, rfl, le_refl _, ?_⟩
    intro r hr
    cases hr

theorem step_spec (P : Vote → Prop) (s : AggState) (i : AggInput)
    (hWF : VotesWF s.windowSize P s.votes) (hi : InputOK P i) :
    VotesWF s.windowSize P (step s i).1.votes ∧
    (step s i).1.windowSize = s.windowSize ∧
    s.currentWindow ≤ (step s i).1.currentWindow ∧
    ∀ r ∈ (step s i).2,
      ResultOK s.windowSize P r ∧
      s.currentWindow ≤ (r.windowId : Int) ∧
      (i = .forceFinalize ∨
        ∃ b, i.blockOf = some b ∧ (r.windowId + 1) * s.windowSize ≤ b) := by
  cases i with
  | addVote pl ac b =>
    obtain ⟨h1, h2, h3, h4⟩ := addVote_spec P s pl ac b hWF hi
    refine ⟨h1, h2, h3, ?_⟩
    intro r hr
    obtain ⟨hROK, hcw, hb⟩ := h4 r hr
    exact ⟨hROK, hcw, Or.inr ⟨b, rfl, hb⟩⟩
  | onBlock b =>
    obtain ⟨h1, h2, h3, h4⟩ := onBlock_spec P s b hWF
    refine ⟨h1, h2, h3, ?_⟩
    intro r hr
    obtain ⟨hROK, hcw, hb⟩ := h4 r hr
    exact ⟨hROK, hcw, Or.inr ⟨b, rfl, hb⟩⟩
  | forceFinalize =>
    obtain ⟨h1, h2, h3, h4⟩ := forceFinalize_spec P s hWF
    refine ⟨h1, h2, h3, ?_⟩
    intro r hr
    obtain ⟨hROK, hcw⟩ := h4 r hr
    exact ⟨hROK, hcw, Or.inl rfl⟩

theorem runAux_spec (P : Vote → Prop) :
    ∀ (ins : List AggInput) (s : AggState),
      VotesWF s.windowSize P s.votes → (∀ i ∈ ins, InputOK P i) →
      VotesWF s.windowSize P (runAux s ins).1.votes ∧
      (runAux s ins).1.windowSize = s.windowSize ∧
      s.currentWindow ≤ (runAux s ins).1.currentWindow ∧
      ∀ r ∈ (runAux s ins).2,
        ResultOK s.windowSize P r ∧
        s.currentWindow ≤ (r.windowId : Int) ∧
        ∃ i ∈ ins, i = .forceFinalize ∨
          ∃ b, i.blockOf = some b ∧ (r.windowId + 1) * s.windowSize ≤ b
  | [], s, hWF, _ => ⟨hWF, rfl, le_refl _, fun r hr => by cases hr⟩
  | i :: is, s, hWF, hins => by
    rw [runAux]
    obtain ⟨h1, h2, h3, h4⟩ := step_spec P s i hWF (hins i (List.mem_cons_self i is))
    have hrec := runAux_spec P is (step s i).1
      (by rw [h2]; exact h1)
      (fun j hj => hins j (List.mem_cons_of_mem i hj))
    rw [h2] at hrec
    obtain ⟨g1, g2, g3, g4⟩ := hrec
    refine ⟨g1, g2, le_trans h3 g3, ?_⟩
    intro r hr
    rcases List.mem_append.mp hr with hr1 | hr2
    · obtain ⟨hROK, hcw, htr⟩ := h4 r hr1
      exact ⟨hROK, hcw, i, List.mem_cons_self i is, htr⟩
    · obtain ⟨hROK, hcw, j, hj, htr⟩ := g4 r hr2
      exact ⟨hROK, le_trans h3 hcw, j, List.mem_cons_of_mem i hj, htr⟩



theorem specSumTallies_incr (c : VoteCounts) (a : Action) :
    specSumTallies (c.incr a) = specSumTallies c + 1 := by
  cases a <;>
    simp [specSumTallies, Actions, VoteCounts.incr, VoteCounts.get] <;> omega

theorem Actions_get?_none (n : Nat) (h : 8 ≤ n) : Actions.get? n = none := by
  apply List.get?_eq_none.mpr
  simpa [Actions] using h

theorem specSumTallies_foldl :
    ∀ (vs : List Vote) (c : VoteCounts),
      specSumTallies
          (vs.foldl
            (fun c v =>
              match Actions.get? v.action with
              | some actionName => c.incr actionName
              | none => c)
            c) =
        specSumTallies c + vs.countP (fun v => decide (v.action < 8))
  | [], c => by simp
  | v :: vs, c => by
    rw [List.foldl_cons, List.countP_cons]
    by_cases hv : v.action < 8
    · rcases hsome : Actions.get? v.action with _ | a
      · have := List.get?_eq_none.mp hsome
        simp [Actions] at this
        omega
      · simp only [hsome]
        rw [specSumTallies_foldl vs (c.incr a), specSumTallies_incr]
        simp [hv]
        omega
    · simp only [Actions_get?_none v.action (by omega)]
      rw [specSumTallies_foldl vs c]
      simp [hv]

theorem specSumTallies_tally (vs : List Vote) (h : ∀ v ∈ vs, v.action < 8) :
    specSumTallies (tally vs) = vs.length := by
  rw [tally, specSumTallies_foldl]
  have h1 : vs.countP (fun v => decide (v.action < 8)) = vs.length := by
    rw [List.countP_eq_length]
    intro v hv
    simpa using h v hv
  rw [h1]
  simp [specSumTallies, Actions, VoteCounts.zero, VoteCounts.get]

theorem div_range (W k b : Nat) (hW : 0 < W) (h : b / W = k) :
    k * W ≤ b ∧ b ≤ (k + 1) * W - 1 := by
  have h1 := Nat.div_add_mod b W
  have h2 := Nat.mod_lt b hW
  have h4 : (b / W + 1) * W = b / W * W + W := by ring
  have h5 : b / W * W = W * (b / W) := Nat.mul_comm _ _
  subst h
  constructor <;> omega

theorem finalizeCount_windowId_bounds :
    ∀ (n : Nat) (s : AggState) (lo : Nat),
      ∀ r ∈ (finalizeCount s lo n).2, lo ≤ r.windowId ∧ r.windowId < lo + n
  | 0, _, _, _, hr => by cases hr
  | n + 1, s, lo, r, hr => by
    rw [finalizeCount] at hr
    rcases List.mem_append.mp hr with hr1 | hr2
    · have hsome : (finalizeWindow s lo).2 = some r := by
        rcases hflw : (finalizeWindow s lo).2 with _ | x
        · rw [hflw] at hr1; cases hr1
        · rw [hflw] at hr1
          rcases List.mem_singleton.mp hr1 with rfl
          rfl
      obtain ⟨vs, _, _, rfl⟩ := finalizeWindow_snd_eq s lo r hsome
      exact ⟨by simp only; omega, by simp only; omega⟩
    · have h3 := finalizeCount_windowId_bounds n (finalizeWindow s lo).1 (lo + 1) r hr2
      exact ⟨by omega, by omega⟩

theorem addVote_mono (s : AggState) (pl : String) (ac b : Nat) :
    s.currentWindow ≤ (addVote s pl ac b).1.currentWindow ∧
    ∀ r ∈ (addVote s pl ac b).2, s.currentWindow ≤ (r.windowId : Int) := by
  simp only [addVote, getWindowId]
  by_cases h1 : s.currentWindow = -1
  · rw [if_pos h1]
    have hc : ¬((b / s.windowSize : Nat) : Int) > ({ s with currentWindow := ((b / s.windowSize : Nat) : Int) }).currentWindow := by
      show ¬((b / s.windowSize : Nat) : Int) > ((b / s.windowSize : Nat) : Int)
      omega
    rw [if_neg hc]
    refine ⟨?_, fun r hr => by cases hr⟩
    show s.currentWindow ≤ ((b / s.windowSize : Nat) : Int)
    have hnn : (0:Int) ≤ ((b / s.windowSize : Nat) : Int) := Int.natCast_nonneg _
    omega
  · rw [if_neg h1]
    by_cases h2 : ((b / s.windowSize : Nat) : Int) > s.currentWindow
    · rw [if_pos h2]
      refine ⟨by show s.currentWindow ≤ ((b / s.windowSize : Nat) : Int); omega, ?_⟩
      intro r hr
      simp only [finalizeRange] at hr
      have := finalizeCount_windowId_bounds _ s s.currentWindow.toNat r hr
      omega
    · rw [if_neg h2]
      exact ⟨le_refl _, fun r hr => by cases hr⟩

theorem onBlock_mono (s : AggState) (b : Nat) :
    s.currentWindow ≤ (onBlock s b).1.currentWindow ∧
    ∀ r ∈ (onBlock s b).2, s.currentWindow ≤ (r.windowId : Int) := by
  simp only [onBlock, getWindowId]
  by_cases h1 : s.currentWindow = -1
  · rw [if_pos h1]
    refine ⟨?_, fun r hr => by cases hr⟩
    show s.currentWindow ≤ ((b / s.windowSize : Nat) : Int)
    have hnn : (0:Int) ≤ ((b / s.windowSize : Nat) : Int) := Int.natCast_nonneg _
    omega
  · rw [if_neg h1]
    by_cases h2 : ((b / s.windowSize : Nat) : Int) > s.currentWindow
    · rw [if_pos h2]
      refine ⟨by show s.currentWindow ≤ ((b / s.windowSize : Nat) : Int); omega, ?_⟩
      intro r hr
      simp only [finalizeRange] at hr
      have := finalizeCount_windowId_bounds _ s s.currentWindow.toNat r hr
      omega
    · rw [if_neg h2]
      exact ⟨le_refl _, fun r hr => by cases hr⟩

theorem forceFinalize_mono (s : AggState) :
    s.currentWindow ≤ (forceFinalize s).1.currentWindow ∧
    ∀ r ∈ (forceFinalize s).2, s.currentWindow ≤ (r.windowId : Int) := by
  simp only [forceFinalize]
  by_cases h1 : s.currentWindow ≥ 0
  · rw [if_pos h1]
    refine ⟨by show s.currentWindow ≤ s.currentWindow + 1; omega, ?_⟩
    intro r hr
    have hsome : (finalizeWindow s s.currentWindow.toNat).2 = some r := by
      rcases hflw : (finalizeWindow s s.currentWindow.toNat).2 with _ | x
      · rw [hflw] at hr; cases hr
      · rw [hflw] at hr
        rcases List.mem_singleton.mp hr with rfl
        rfl
    obtain ⟨vs, _, _, rfl⟩ := finalizeWindow_snd_eq s s.currentWindow.toNat r hsome
    simp only
    omega
  · rw [if_neg h1]
    exact ⟨le_refl _, fun r hr => by cases hr⟩

theorem step_mono (s : AggState) (i : AggInput) :
    s.currentWindow ≤ (step s i).1.currentWindow ∧
    ∀ r ∈ (step s i).2, s.currentWindow ≤ (r.windowId : Int) := by
  cases i with
  | addVote pl ac b => exact addVote_mono s pl ac b
  | onBlock b => exact onBlock_mono s b
  | forceFinalize => exact forceFinalize_mono s

theorem runAux_mono :
    ∀ (ins : List AggInput) (s : AggState),
      s.currentWindow ≤ (runAux s ins).1.currentWindow ∧
      ∀ r ∈ (runAux s ins).2, s.currentWindow ≤ (r.windowId : Int)
  | [], s => ⟨le_refl _, fun r hr => by cases hr⟩
  | i :: is, s => by
    rw [runAux]
    obtain ⟨h1, h2⟩ := step_mono s i
    obtain ⟨g1, g2⟩ := runAux_mono is (step s i).1
    refine ⟨le_trans h1 g1, ?_⟩
    intro r hr
    rcases List.mem_append.mp hr with hr1 | hr2
    · exact h2 r hr1
    · exact le_trans h1 (g2 r hr2)

theorem addVote_empty (s : AggState) (k : Nat) (pl : String) (ac b : Nat)
    (hk : AllEmptyAt s.votes k) :
    ∀ r ∈ (addVote s pl ac b).2, r.windowId ≠ k := by
  simp only [addVote, getWindowId]
  by_cases h1 : s.currentWindow = -1
  · rw [if_pos h1]
    have hc : ¬((b / s.windowSize : Nat) : Int) > ({ s with currentWindow := ((b / s.windowSize : Nat) : Int) }).currentWindow := by
      show ¬((b / s.windowSize : Nat) : Int) > ((b / s.windowSize : Nat) : Int)
      omega
    rw [if_neg hc]
    exact fun r hr => by cases hr
  · rw [if_neg h1]
    by_cases h2 : ((b / s.windowSize : Nat) : Int) > s.currentWindow
    · rw [if_pos h2]
      intro r hr
      simp only [finalizeRange] at hr
      exact finalizeCount_empty k _ s s.currentWindow.toNat hk r hr
    · rw [if_neg h2]
      exact fun r hr => by cases hr

theorem onBlock_empty (s : AggState) (k : Nat) (b : Nat)
    (hk : AllEmptyAt s.votes k) :
    ∀ r ∈ (onBlock s b).2, r.windowId ≠ k := by
  simp only [onBlock, getWindowId]
  by_cases h1 : s.currentWindow = -1
  · rw [if_pos h1]
    exact fun r hr => by cases hr
  · rw [if_neg h1]
    by_cases h2 : ((b / s.windowSize : Nat) : Int) > s.currentWindow
    · rw [if_pos h2]
      intro r hr
      simp only [finalizeRange] at hr
      exact finalizeCount_empty k _ s s.currentWindow.toNat hk r hr
    · rw [if_neg h2]
      exact fun r hr => by cases hr

theorem forceFinalize_empty (s : AggState) (k : Nat)
    (hk : AllEmptyAt s.votes k) :
    ∀ r ∈ (forceFinalize s).2, r.windowId ≠ k := by
  simp only [forceFinalize]
  by_cases h1 : s.currentWindow ≥ 0
  · rw [if_pos h1]
    intro r hr
    have hsome : (finalizeWindow s s.currentWindow.toNat).2 = some r := by
      rcases hflw : (finalizeWindow s s.currentWindow.toNat).2 with _ | x
      · rw [hflw] at hr; cases hr
      · rw [hflw] at hr
        rcases List.mem_singleton.mp hr with rfl
        rfl
    obtain ⟨vs, hlk, hne, rfl⟩ := finalizeWindow_snd_eq s s.currentWindow.toNat r hsome
    intro hlo
    simp only at hlo
    subst hlo
    exact hne (hk vs (votesLookup_mem s.votes _ vs hlk))
  · rw [if_neg h1]
    exact fun r hr => by cases hr

theorem step_empty (s : AggState) (k : Nat) (i : AggInput)
    (hk : AllEmptyAt s.votes k) :
    ∀ r ∈ (step s i).2, r.windowId ≠ k := by
  cases i with
  | addVote pl ac b => exact addVote_empty s k pl ac b hk
  | onBlock b => exact onBlock_empty s k b hk
  | forceFinalize => exact forceFinalize_empty s k hk



theorem AllEmptyAt_push_ne (m : List (Nat × List Vote)) (k key : Nat) (v : Vote)
    (hne : key ≠ k) (h : AllEmptyAt m k) : AllEmptyAt (votesPush m key v) k := by
  intro vs hvs
  rcases mem_votesPush m key v (k, vs) hvs with h2 | ⟨vs2, _, heq⟩ | heq
  · exact h vs h2
  · exact absurd (congrArg Prod.fst heq) (by simpa using fun he => hne he.symm)
  · exact absurd (congrArg Prod.fst heq) (by simpa using fun he => hne he.symm)

theorem addVote_AllEmptyAt (s : AggState) (k : Nat) (pl : String) (ac b : Nat)
    (hne : b / s.windowSize ≠ k) (hk : AllEmptyAt s.votes k) :
    AllEmptyAt (addVote s pl ac b).1.votes k := by
  simp only [addVote, getWindowId]
  by_cases h1 : s.currentWindow = -1
  · rw [if_pos h1]
    have hc : ¬((b / s.windowSize : Nat) : Int) > ({ s with currentWindow := ((b / s.windowSize : Nat) : Int) }).currentWindow := by
      show ¬((b / s.windowSize : Nat) : Int) > ((b / s.windowSize : Nat) : Int)
      omega
    rw [if_neg hc]
    exact AllEmptyAt_push_ne s.votes k _ _ hne hk
  · rw [if_neg h1]
    by_cases h2 : ((b / s.windowSize : Nat) : Int) > s.currentWindow
    · rw [if_pos h2]
      simp only [finalizeRange]
      exact AllEmptyAt_push_ne _ k _ _ hne
        (finalizeCount_AllEmptyAt k _ s s.currentWindow.toNat hk)
    · rw [if_neg h2]
      exact AllEmptyAt_push_ne s.votes k _ _ hne hk

theorem onBlock_AllEmptyAt (s : AggState) (k : Nat) (b : Nat)
    (hk : AllEmptyAt s.votes k) : AllEmptyAt (onBlock s b).1.votes k := by
  simp only [onBlock, getWindowId]
  by_cases h1 : s.currentWindow = -1
  · rw [if_pos h1]
    exact hk
  · rw [if_neg h1]
    by_cases h2 : ((b / s.windowSize : Nat) : Int) > s.currentWindow
    · rw [if_pos h2]
      simp only [finalizeRange]
      exact finalizeCount_AllEmptyAt k _ s s.currentWindow.toNat hk
    · rw [if_neg h2]
      exact hk

theorem forceFinalize_AllEmptyAt (s : AggState) (k : Nat)
    (hk : AllEmptyAt s.votes k) : AllEmptyAt (forceFinalize s).1.votes k := by
  simp only [forceFinalize]
  by_cases h1 : s.currentWindow ≥ 0
  · rw [if_pos h1]
    rw [finalizeWindow_fst]
    exact AllEmptyAt_erase _ _ k hk
  · rw [if_neg h1]
    exact hk

theorem step_AllEmptyAt (s : AggState) (k : Nat) (i : AggInput)
    (hi : InputOK (fun v => v.blockNumber / s.windowSize ≠ k) i)
    (hk : AllEmptyAt s.votes k) : AllEmptyAt (step s i).1.votes k := by
  cases i with
  | addVote pl ac b => exact addVote_AllEmptyAt s k pl ac b hi hk
  | onBlock b => exact onBlock_AllEmptyAt s k b hk
  | forceFinalize => exact forceFinalize_AllEmptyAt s k hk

theorem addVote_windowSize (s : AggState) (pl : String) (ac b : Nat) :
    (addVote s pl ac b).1.windowSize = s.windowSize := by
  simp only [addVote, getWindowId]
  by_cases h1 : s.currentWindow = -1
  · rw [if_pos h1]
    have hc : ¬((b / s.windowSize : Nat) : Int) > ({ s with currentWindow := ((b / s.windowSize : Nat) : Int) }).currentWindow := by
      show ¬((b / s.windowSize : Nat) : Int) > ((b / s.windowSize : Nat) : Int)
      omega
    rw [if_neg hc]
  · rw [if_neg h1]
    by_cases h2 : ((b / s.windowSize : Nat) : Int) > s.currentWindow
    · rw [if_pos h2]
      simp only [finalizeRange]
      show (finalizeCount s s.currentWindow.toNat _).1.windowSize = s.windowSize
      exact finalizeCount_fst_windowSize _ s _
    · rw [if_neg h2]

theorem onBlock_windowSize (s : AggState) (b : Nat) :
    (onBlock s b).1.windowSize = s.windowSize := by
  simp only [onBlock, getWindowId]
  by_cases h1 : s.currentWindow = -1
  · rw [if_pos h1]
  · rw [if_neg h1]
    by_cases h2 : ((b / s.windowSize : Nat) : Int) > s.currentWindow
    · rw [if_pos h2]
      simp only [finalizeRange]
      show (finalizeCount s s.currentWindow.toNat _).1.windowSize = s.windowSize
      exact finalizeCount_fst_windowSize _ s _
    · rw [if_neg h2]

theorem forceFinalize_windowSize (s : AggState) :
    (forceFinalize s).1.windowSize = s.windowSize := by
  simp only [forceFinalize]
  by_cases h1 : s.currentWindow ≥ 0
  · rw [if_pos h1]
    rw [finalizeWindow_fst]
  · rw [if_neg h1]

theorem step_windowSize (s : AggState) (i : AggInput) :
    (step s i).1.windowSize = s.windowSize := by
  cases i with
  | addVote pl ac b => exact addVote_windowSize s pl ac b
  | onBlock b => exact onBlock_windowSize s b
  | forceFinalize => exact forceFinalize_windowSize s

theorem runAux_empty (k : Nat) :
    ∀ (ins : List AggInput) (s : AggState),
      (∀ i ∈ ins, InputOK (fun v => v.blockNumber / s.windowSize ≠ k) i) →
      AllEmptyAt s.votes k →
      ∀ r ∈ (runAux s ins).2, r.windowId ≠ k
  | [], _, _, _, _, hr => by cases hr
  | i :: is, s, hins, hk, r, hr => by
    rw [runAux] at hr
    rcases List.mem_append.mp hr with hr1 | hr2
    · exact step_empty s k i hk r hr1
    · have hws := step_windowSize s i
      have hkeep := step_AllEmptyAt s k i (hins i (List.mem_cons_self i is)) hk
      exact runAux_empty k is (step s i).1
        (by rw [hws]; exact fun j hj => hins j (List.mem_cons_of_mem i hj))
        hkeep r hr2



/-- C1 counterexample: in the spec scenario (window size 5, votes
(block 0, A) and (block 1, B), then onBlock(5)), `finalizeWindow` elects
`A` — the first tied action in canonical enum order — whereas the
spec-described hash tie-break `(hash XOR windowId) mod 2` with hash
0x00..01 picks `B`.  No hash enters the election at all. -/
theorem C1_counterexample :
    ((run 5 [AggInput.addVote "p" 4 0, AggInput.addVote "q" 5 1,
        AggInput.onBlock 5]).2.map (fun r => r.winningAction) = [Action.A]) ∧
    specHashTieWinner 1 0 [Action.A, Action.B] = some Action.B ∧
    Action.A ≠ Action.B := by
  decide

/-- C1 amended: every result the aggregator emits carries as winner the
first action in canonical enum order attaining the maximal tally; the
winner attains the maximum and no action out-tallies it.  The election is
a pure function of the inputs, so two runs on the same inputs elect the
same winner; the prior-block hash plays no role. -/
theorem C1_amended_theorem (W : Nat) (ins : List AggInput) (r : WindowResult)
    (hr : r ∈ (run W ins).2) :
    r.winningAction = firstArgmax r.votes ∧
    r.votes.get r.winningAction = maxTally r.votes ∧
    ∀ a, r.votes.get a ≤ r.votes.get r.winningAction := by
  have h := (runAux_spec (fun _ => True) ins (initState W)
    (fun p hp => by cases hp) (fun i _ => by cases i <;> trivial)).2.2.2 r hr
  obtain ⟨⟨vs, _, _, hvotes, hwin, _, _, _⟩, _, _⟩ := h
  have h1 : r.winningAction = firstArgmax r.votes := by
    rw [hwin, hvotes, electWinner_fst_eq]
  refine ⟨h1, ?_, ?_⟩
  · rw [h1]
    exact get_firstArgmax r.votes
  · intro a
    rw [h1, get_firstArgmax r.votes]
    exact get_le_maxTally r.votes a

/-- C1 witness: the amended theorem applied to a concrete run (a single
UP vote in window 0, finalized by onBlock(5)). -/
theorem C1_witness :
    (⟨0, 0, 4, Action.UP, ⟨1, 0, 0, 0, 0, 0, 0, 0⟩, 1⟩ : WindowResult) ∈
        (run 5 [AggInput.addVote "w" 0 0, AggInput.onBlock 5]).2 ∧
    (⟨0, 0, 4, Action.UP, ⟨1, 0, 0, 0, 0, 0, 0, 0⟩, 1⟩ : WindowResult).winningAction =
      firstArgmax (⟨0, 0, 4, Action.UP, ⟨1, 0, 0, 0, 0, 0, 0, 0⟩, 1⟩ : WindowResult).votes :=
  ⟨by decide,
    (C1_amended_theorem 5 [AggInput.addVote "w" 0 0, AggInput.onBlock 5] _
      (by decide)).1⟩

/-- C2 counterexample: an `addVote` with the out-of-range action code 8
is counted in `totalVotes` but in no tally, so the emitted result for its
window has `sum(tallies) = 0` yet `totalVotes = 1`. -/
theorem C2_counterexample :
    ∃ r ∈ (run 5 [AggInput.addVote "p" 8 0, AggInput.onBlock 5]).2,
      specSumTallies r.votes ≠ r.totalVotes := by
  decide

/-- C2 amended: provided every `addVote` in the input sequence carries an
action code in 0..7 (which is all the on-chain ingestion paths can
produce, since the contract event argument is a Solidity enum), every
emitted result conserves votes: the sum of the eight tallies equals
`totalVotes`, which equals the number of votes stored for the window at
finalization, and every constituent vote lies in
`[startBlock, endBlock]`. -/
theorem C2_amended_theorem (W : Nat) (hW : 0 < W) (ins : List AggInput)
    (hval : ∀ i ∈ ins, InputOK (fun v => v.action < 8) i) (r : WindowResult)
    (hr : r ∈ (run W ins).2) :
    specSumTallies r.votes = r.totalVotes ∧
    ∃ vs : List Vote, r.totalVotes = vs.length ∧ r.votes = tally vs ∧
      ∀ v ∈ vs, r.startBlock ≤ v.blockNumber ∧ v.blockNumber ≤ r.endBlock := by
  have h := (runAux_spec (fun v => v.action < 8) ins (initState W)
    (fun p hp => by cases hp) hval).2.2.2 r hr
  obtain ⟨⟨vs, _, hPvs, hvotes, _, htot, hsb, heb⟩, _, _⟩ := h
  constructor
  · rw [hvotes, htot, specSumTallies_tally vs (fun v hv => (hPvs v hv).1)]
  · refine ⟨vs, htot, hvotes, ?_⟩
    intro v hv
    obtain ⟨hlow, hhigh⟩ := div_range W r.windowId v.blockNumber hW (hPvs v hv).2
    constructor
    · rw [hsb]
      exact hlow
    · rw [heb]
      exact hhigh

/-- C2 witness: the amended theorem applied to a concrete run (one LEFT
vote at block 1 with window size 5). -/
theorem C2_witness :
    (0 < 5) ∧
    InputOK (fun v => v.action < 8) (AggInput.addVote "w" 2 1) ∧
    InputOK (fun v => v.action < 8) (AggInput.onBlock 5) ∧
    (⟨0, 0, 4, Action.LEFT, ⟨0, 0, 1, 0, 0, 0, 0, 0⟩, 1⟩ : WindowResult) ∈
        (run 5 [AggInput.addVote "w" 2 1, AggInput.onBlock 5]).2 ∧
    specSumTallies (⟨0, 0, 1, 0, 0, 0, 0, 0⟩ : VoteCounts) = 1 :=
  ⟨by decide, by show (2:Nat) < 8; decide, trivial, by decide,
    (C2_amended_theorem 5 (by decide) [AggInput.addVote "w" 2 1, AggInput.onBlock 5]
      (fun i hi => by
        rcases List.mem_cons.mp hi with rfl | hi2
        · show (2:Nat) < 8
          decide
        · rcases List.mem_cons.mp hi2 with rfl | hi3
          · trivial
          · cases hi3)
      (⟨0, 0, 4, Action.LEFT, ⟨0, 0, 1, 0, 0, 0, 0, 0⟩, 1⟩ : WindowResult)
      (by decide)).1⟩

/-- C4 counterexample: two `addVote` calls alone (blocks 0 and 7, window
size 5) finalize window 0 and emit its result although no `onBlock` tick
was ever observed — votes also trigger finalization. -/
theorem C4_counterexample :
    ((run 5 [AggInput.addVote "p" 0 0, AggInput.addVote "q" 0 7]).2.map
        (fun r => r.windowId) = [0]) ∧
    ([AggInput.addVote "p" 0 0, AggInput.addVote "q" 0 7].all
        (fun i => !i.isOnBlock) = true) := by
  decide

/-- C4 amended: in any run without `forceFinalize`, a result for window
`k` is emitted only once some input — an `addVote` or an `onBlock`, not
necessarily a tick — carrying a block number `≥ (k+1)·W` has been
processed. -/
theorem C4_amended_theorem (W : Nat) (ins : List AggInput)
    (hnf : AggInput.forceFinalize ∉ ins) (r : WindowResult)
    (hr : r ∈ (run W ins).2) :
    ∃ i ∈ ins, ∃ b, i.blockOf = some b ∧ (r.windowId + 1) * W ≤ b := by
  have h := (runAux_spec (fun _ => True) ins (initState W)
    (fun p hp => by cases hp) (fun i _ => by cases i <;> trivial)).2.2.2 r hr
  obtain ⟨_, _, i, hi, htr⟩ := h
  rcases htr with rfl | ⟨b, hb, hle⟩
  · exact absurd hi hnf
  · exact ⟨i, hi, b, hb, hle⟩

/-- C4 witness: the amended theorem applied to a concrete run (one RIGHT
vote at block 2, finalized by onBlock(5), window size 5). -/
theorem C4_witness :
    AggInput.forceFinalize ∉ [AggInput.addVote "w" 3 2, AggInput.onBlock 5] ∧
    (⟨0, 0, 4, Action.RIGHT, ⟨0, 0, 0, 1, 0, 0, 0, 0⟩, 1⟩ : WindowResult) ∈
        (run 5 [AggInput.addVote "w" 3 2, AggInput.onBlock 5]).2 ∧
    ∃ i ∈ [AggInput.addVote "w" 3 2, AggInput.onBlock 5],
      ∃ b, i.blockOf = some b ∧
        ((⟨0, 0, 4, Action.RIGHT, ⟨0, 0, 0, 1, 0, 0, 0, 0⟩, 1⟩ : WindowResult).windowId + 1) * 5 ≤ b :=
  ⟨by decide, by decide,
    C4_amended_theorem 5 [AggInput.addVote "w" 3 2, AggInput.onBlock 5]
      (by decide)
      (⟨0, 0, 4, Action.RIGHT, ⟨0, 0, 0, 1, 0, 0, 0, 0⟩, 1⟩ : WindowResult)
      (by decide)⟩

/-- C5 counterexample: after onBlock(5) has set `currentWindow = 1`
(window size 5), a late vote for block 0 (window 0) is nevertheless
appended to the per-window vote store — `addVote` does not reject it. -/
theorem C5_counterexample :
    ((run 5 [AggInput.onBlock 5, AggInput.addVote "p" 0 0]).1.votes =
      [(0, [⟨"p", 0, 0⟩])]) ∧
    ((run 5 [AggInput.onBlock 5, AggInput.addVote "p" 0 0]).1.currentWindow = 1) := by
  decide

/-- C5 amended: a late vote (window id strictly below `currentWindow`) is
silently recorded in the per-window vote store (a leak), but the call
emits no result, leaves `currentWindow` unchanged, and no result for that
vote's window is ever emitted afterwards. -/
theorem C5_amended_theorem (s : AggState) (pl : String) (ac b : Nat)
    (h : ((b / s.windowSize : Nat) : Int) < s.currentWindow) :
    (addVote s pl ac b).2 = [] ∧
    (addVote s pl ac b).1.currentWindow = s.currentWindow ∧
    (addVote s pl ac b).1.votes =
      votesPush s.votes (b / s.windowSize) ⟨pl, ac, b⟩ ∧
    ∀ (future : List AggInput) (r : WindowResult),
      r ∈ (runAux (addVote s pl ac b).1 future).2 →
      ((b / s.windowSize : Nat) : Int) < (r.windowId : Int) := by
  have hnn : (0:Int) ≤ ((b / s.windowSize : Nat) : Int) := Int.natCast_nonneg _
  have h1 : ¬ s.currentWindow = -1 := by omega
  have h2 : ¬ ((b / s.windowSize : Nat) : Int) > s.currentWindow := by omega
  have hav : addVote s pl ac b =
      ({ s with votes := votesPush s.votes (b / s.windowSize) ⟨pl, ac, b⟩ }, []) := by
    simp only [addVote, getWindowId]
    rw [if_neg h1, if_neg h2]
  refine ⟨by rw [hav], by rw [hav], by rw [hav], ?_⟩
  intro future r hr
  rw [hav] at hr
  have hm := (runAux_mono future _).2 r hr
  simp only at hm
  omega

/-- C5 witness: the amended theorem applied to a concrete late vote
(store state with `currentWindow = 1`, vote at block 0). -/
theorem C5_witness :
    (((0 / (⟨5, 1, []⟩ : AggState).windowSize : Nat) : Int) <
      (⟨5, 1, []⟩ : AggState).currentWindow) ∧
    (addVote ⟨5, 1, []⟩ "p" 0 0).2 = [] ∧
    (addVote ⟨5, 1, []⟩ "p" 0 0).1.currentWindow = 1 :=
  ⟨by decide,
    (C5_amended_theorem ⟨5, 1, []⟩ "p" 0 0 (by decide)).1,
    by
      have := (C5_amended_theorem ⟨5, 1, []⟩ "p" 0 0 (by decide)).2.1
      rw [this]⟩

/-- C6: a window with no recorded votes yields no `WindowResult` when the
aggregator finalizes past it, while `currentWindow` still advances; over
a whole run in which no vote lands in window `k`, no result for `k` is
ever emitted; a first onBlock(10) with window size 5 emits nothing and
leaves `currentWindow = 2`. -/
theorem C6_theorem (s : AggState) (k : Nat) (i : AggInput)
    (hk : AllEmptyAt s.votes k) :
    (∀ r ∈ (step s i).2, r.windowId ≠ k) ∧
    (∀ b, i = AggInput.onBlock b → s.currentWindow = -1 →
      (step s i).1.currentWindow = ((b / s.windowSize : Nat) : Int) ∧
      (step s i).2 = []) ∧
    (∀ b, i = AggInput.onBlock b → s.currentWindow ≠ -1 →
      s.currentWindow < ((b / s.windowSize : Nat) : Int) →
      (step s i).1.currentWindow = ((b / s.windowSize : Nat) : Int)) ∧
    (∀ (W : Nat) (ins : List AggInput),
      (∀ j ∈ ins, InputOK (fun v => v.blockNumber / W ≠ k) j) →
      ∀ r ∈ (run W ins).2, r.windowId ≠ k) := by
  refine ⟨step_empty s k i hk, ?_, ?_, ?_⟩
  · rintro b rfl hcw
    show (onBlock s b).1.currentWindow = _ ∧ (onBlock s b).2 = []
    simp only [onBlock, getWindowId]
    rw [if_pos hcw]
    exact ⟨rfl, rfl⟩
  · rintro b rfl hcw hlt
    show (onBlock s b).1.currentWindow = _
    simp only [onBlock, getWindowId]
    rw [if_neg hcw, if_pos (by omega : ((b / s.windowSize : Nat) : Int) > s.currentWindow)]
  · intro W ins hins r hr
    exact runAux_empty k ins (initState W) hins (fun vs hvs => nomatch hvs) r hr

/-- C6 witness: the theorem applied to the spec scenario — a fresh
aggregator with window size 5 receiving onBlock(10). -/
theorem C6_witness :
    AllEmptyAt (initState 5).votes 0 ∧
    (step (initState 5) (AggInput.onBlock 10)).1.currentWindow = 2 ∧
    (step (initState 5) (AggInput.onBlock 10)).2 = [] := by
  have hempty : AllEmptyAt (initState 5).votes 0 := by
    intro vs hv
    cases hv
  have h := (C6_theorem (initState 5) 0 (AggInput.onBlock 10) hempty).2.1 10 rfl rfl
  refine ⟨hempty, ?_, h.2⟩
  rw [h.1]
  decide



theorem processVoteEvent_already_seen (s : IndexerState) (pl : String)
    (ac bn : Nat) (tx : String) (li now : Nat)
    (h : getEventKey bn tx li ∈ s.seenEvents) :
    processVoteEvent s pl ac bn tx li now = (s, false) := by
  rw [processVoteEvent, if_pos h]

theorem processVoteEvent_mem_seen (s : IndexerState) (pl : String)
    (ac bn : Nat) (tx : String) (li now : Nat) :
    getEventKey bn tx li ∈ (processVoteEvent s pl ac bn tx li now).1.seenEvents := by
  rw [processVoteEvent]
  by_cases h : getEventKey bn tx li ∈ s.seenEvents
  · rw [if_pos h]
    exact h
  · rw [if_neg h]
    simp

theorem processVoteEvent_seen_mono (s : IndexerState) (pl : String)
    (ac bn : Nat) (tx : String) (li now : Nat) (k : String)
    (hk : k ∈ s.seenEvents) :
    k ∈ (processVoteEvent s pl ac bn tx li now).1.seenEvents := by
  rw [processVoteEvent]
  by_cases h : getEventKey bn tx li ∈ s.seenEvents
  · rw [if_pos h]
    exact hk
  · rw [if_neg h]
    simp only
    exact List.mem_append.mpr (Or.inl hk)

theorem processVoteEvent_nodup (s : IndexerState) (pl : String)
    (ac bn : Nat) (tx : String) (li now : Nat)
    (h : s.seenEvents.Nodup) :
    (processVoteEvent s pl ac bn tx li now).1.seenEvents.Nodup := by
  rw [processVoteEvent]
  by_cases hk : getEventKey bn tx li ∈ s.seenEvents
  · rw [if_pos hk]
    exact h
  · rw [if_neg hk]
    simp only [List.nodup_append, List.nodup_cons]
    refine ⟨h, by simp, ?_⟩
    intro a ha hmem
    rcases List.mem_singleton.mp hmem with rfl
    exact hk ha

theorem processEvent_seen_mono (s : IndexerState) (e : IndexerEvent) (k : String)
    (hk : k ∈ s.seenEvents) : k ∈ (processEvent s e).seenEvents := by
  cases e with
  | voteEvent pl ac bn tx li now => exact processVoteEvent_seen_mono s pl ac bn tx li now k hk
  | blockTick b => exact hk

theorem processEvent_nodup (s : IndexerState) (e : IndexerEvent)
    (h : s.seenEvents.Nodup) : (processEvent s e).seenEvents.Nodup := by
  cases e with
  | voteEvent pl ac bn tx li now => exact processVoteEvent_nodup s pl ac bn tx li now h
  | blockTick b => exact h

theorem processEvents_seen_mono :
    ∀ (es : List IndexerEvent) (s : IndexerState) (k : String),
      k ∈ s.seenEvents → k ∈ (processEvents s es).seenEvents
  | [], _, _, hk => hk
  | e :: es, s, k, hk =>
    processEvents_seen_mono es (processEvent s e) k (processEvent_seen_mono s e k hk)

theorem processEvents_nodup :
    ∀ (es : List IndexerEvent) (s : IndexerState),
      s.seenEvents.Nodup → (processEvents s es).seenEvents.Nodup
  | [], _, h => h
  | e :: es, s, h => processEvents_nodup es (processEvent s e) (processEvent_nodup s e h)

/-- C3: a vote event is identified by `(blockNumber, txHash, logIndex)`.
Feeding a second event with the same triple — from either ingestion path,
with any other events interleaved — returns `false` and changes nothing:
neither `seenEvents`, nor the aggregator, nor the vote cache; `seenEvents`
never accumulates a duplicate key. -/
theorem C3_theorem (s : IndexerState) (pl : String) (ac bn : Nat)
    (tx : String) (li now : Nat) (others : List IndexerEvent)
    (pl2 : String) (ac2 now2 : Nat)
    (hnd : s.seenEvents.Nodup) :
    (processVoteEvent
        (processEvents (processVoteEvent s pl ac bn tx li now).1 others)
        pl2 ac2 bn tx li now2).2 = false ∧
    (processVoteEvent
        (processEvents (processVoteEvent s pl ac bn tx li now).1 others)
        pl2 ac2 bn tx li now2).1 =
      processEvents (processVoteEvent s pl ac bn tx li now).1 others ∧
    (processEvents (processVoteEvent s pl ac bn tx li now).1 others).seenEvents.Nodup := by
  have h1 := processVoteEvent_mem_seen s pl ac bn tx li now
  have h2 := processEvents_seen_mono others _ _ h1
  have h3 := processVoteEvent_already_seen
    (processEvents (processVoteEvent s pl ac bn tx li now).1 others) pl2 ac2 bn tx li now2 h2
  refine ⟨?_, ?_, ?_⟩
  · rw [h3]
  · rw [h3]
  · exact processEvents_nodup others _ (processVoteEvent_nodup s pl ac bn tx li now hnd)

/-- C3 witness: the theorem applied to a concrete replay — the same
`(block 7, 0xaa, 0)` event fed once by the subscription path and again by
the polling path after a block tick. -/
theorem C3_witness :
    ((⟨[], initState 5, []⟩ : IndexerState).seenEvents.Nodup) ∧
    (processVoteEvent
        (processEvents
          (processVoteEvent ⟨[], initState 5, []⟩ "0xab" 4 7 "0xaa" 0 100).1
          [IndexerEvent.blockTick 8])
        "0xab" 4 7 "0xaa" 0 200).2 = false ∧
    (processEvents
        (processVoteEvent ⟨[], initState 5, []⟩ "0xab" 4 7 "0xaa" 0 100).1
        [IndexerEvent.blockTick 8]).seenEvents.Nodup :=
  ⟨List.nodup_nil,
    (C3_theorem ⟨[], initState 5, []⟩ "0xab" 4 7 "0xaa" 0 100
      [IndexerEvent.blockTick 8] "0xab" 4 200 List.nodup_nil).1,
    (C3_theorem ⟨[], initState 5, []⟩ "0xab" 4 7 "0xaa" 0 100
      [IndexerEvent.blockTick 8] "0xab" 4 200 List.nodup_nil).2.2⟩



theorem stepPipeline_inFlight_le (s : PipelineState) (e : PipelineEvent)
    (h : s.compressionInFlight ≤ maxConcurrentCompressions) :
    (stepPipeline s e).compressionInFlight ≤ maxConcurrentCompressions := by
  cases e with
  | tick f =>
    simp only [stepPipeline, frameTick, compressAndEmitStart, maxConcurrentCompressions] at *
    by_cases hc : s.compressionInFlight < 8
    · rw [if_pos hc]
      show s.compressionInFlight + 1 ≤ 8
      omega
    · rw [if_neg hc]
      exact h
  | complete =>
    simp only [stepPipeline, settleCompression, compressAndEmitStart,
      maxConcurrentCompressions] at *
    rcases hq : s.queuedFrame with _ | f
    · simp only [hq]
      show s.compressionInFlight - 1 ≤ 8
      omega
    · simp only [hq]
      by_cases hc : s.compressionInFlight - 1 < 8
      · rw [if_pos hc]
        show s.compressionInFlight - 1 + 1 ≤ 8
        omega
      · rw [if_neg hc]
        show s.compressionInFlight - 1 ≤ 8
        omega
  | compressError =>
    simp only [stepPipeline, settleCompression, compressAndEmitStart,
      maxConcurrentCompressions] at *
    rcases hq : s.queuedFrame with _ | f
    · simp only [hq]
      show s.compressionInFlight - 1 ≤ 8
      omega
    · simp only [hq]
      by_cases hc : s.compressionInFlight - 1 < 8
      · rw [if_pos hc]
        show s.compressionInFlight - 1 + 1 ≤ 8
        omega
      · rw [if_neg hc]
        show s.compressionInFlight - 1 ≤ 8
        omega

theorem foldl_stepPipeline_inFlight_le :
    ∀ (es : List PipelineEvent) (s : PipelineState),
      s.compressionInFlight ≤ maxConcurrentCompressions →
      (es.foldl stepPipeline s).compressionInFlight ≤ maxConcurrentCompressions
  | [], _, h => h
  | e :: es, s, h =>
    foldl_stepPipeline_inFlight_le es (stepPipeline s e) (stepPipeline_inFlight_le s e h)

theorem settleCompression_dequeues (s : PipelineState) (f : Nat)
    (h0 : 0 < s.compressionInFlight)
    (h8 : s.compressionInFlight ≤ maxConcurrentCompressions)
    (hq : s.queuedFrame = some f) :
    settleCompression s = ⟨s.compressionInFlight, none⟩ := by
  simp only [settleCompression, compressAndEmitStart, hq]
  rw [if_pos (by simp only [maxConcurrentCompressions] at h8 ⊢; omega)]
  have he : s.compressionInFlight - 1 + 1 = s.compressionInFlight := by omega
  rw [he]

/-- C7: the frame pipeline keeps at most `maxConcurrent = 8` compressions
in flight and at most one queued frame in every reachable state; a frame
arriving while all slots are busy replaces the queued frame (latest
wins); and a compression completion or error with a queued frame restores
the slot and immediately starts the queued frame (net in-flight count
unchanged, queue emptied). -/
theorem C7_theorem :
    (∀ es, (runPipeline es).compressionInFlight ≤ maxConcurrentCompressions) ∧
    (∀ es, queueSize (runPipeline es) ≤ 1) ∧
    (∀ (s : PipelineState) (f : Nat),
      ¬ s.compressionInFlight < maxConcurrentCompressions →
      stepPipeline s (.tick f) = { s with queuedFrame := some f }) ∧
    (∀ (s : PipelineState) (f : Nat),
      0 < s.compressionInFlight →
      s.compressionInFlight ≤ maxConcurrentCompressions →
      s.queuedFrame = some f →
      stepPipeline s .compressError = ⟨s.compressionInFlight, none⟩) ∧
    (∀ (s : PipelineState) (f : Nat),
      0 < s.compressionInFlight →
      s.compressionInFlight ≤ maxConcurrentCompressions →
      s.queuedFrame = some f →
      stepPipeline s .complete = ⟨s.compressionInFlight, none⟩) := by
  refine ⟨?_, ?_, ?_, ?_, ?_⟩
  · intro es
    exact foldl_stepPipeline_inFlight_le es ⟨0, none⟩ (by decide)
  · intro es
    rcases runPipeline es with ⟨n, _ | f⟩ <;> simp [queueSize]
  · intro s f hc
    simp only [stepPipeline, frameTick]
    rw [if_neg hc]
  · intro s f h0 h8 hq
    exact settleCompression_dequeues s f h0 h8 hq
  · intro s f h0 h8 hq
    exact settleCompression_dequeues s f h0 h8 hq

/-- C7 witness: the theorem applied at the saturated state — eight
compressions in flight, a tick queues its frame, and an error with a
queued frame dequeues it. -/
theorem C7_witness :
    (¬ (⟨8, none⟩ : PipelineState).compressionInFlight < maxConcurrentCompressions) ∧
    stepPipeline ⟨8, none⟩ (PipelineEvent.tick 7) = ⟨8, some 7⟩ ∧
    (0 < (⟨8, some 7⟩ : PipelineState).compressionInFlight) ∧
    ((⟨8, some 7⟩ : PipelineState).queuedFrame = some 7) ∧
    stepPipeline ⟨8, some 7⟩ PipelineEvent.compressError = ⟨8, none⟩ :=
  ⟨by decide,
    C7_theorem.2.2.1 ⟨8, none⟩ 7 (by decide),
    by decide,
    rfl,
    C7_theorem.2.2.2.1 ⟨8, some 7⟩ 7 (by decide) (by decide) rfl⟩



theorem sampleStep_some_some (o n : GameState) :
    sampleStep (some o) (some n) =
      if (o.location != n.location || o.badgeCount != n.badgeCount ||
          o.partyCount != n.partyCount || o.money != n.money || hpAnyDiffers o n)
      then (some n, true) else (some o, false) := rfl

theorem HpEntry_ne_iff (c hp : HpEntry) :
    c ≠ hp ↔ c.current ≠ hp.current ∨ c.max ≠ hp.max := by
  constructor
  · intro hne
    by_cases h1 : c.current = hp.current
    · by_cases h2 : c.max = hp.max
      · exfalso
        apply hne
        cases c
        cases hp
        simp only at h1 h2
        rw [h1, h2]
      · exact Or.inr h2
    · exact Or.inl h1
  · intro hd heq
    rcases hd with h | h
    · exact h (by rw [heq])
    · exact h (by rw [heq])

theorem hpAnyDiffers_iff (cg gs : GameState)
    (hlen : cg.partyHp.length = gs.partyHp.length) :
    hpAnyDiffers cg gs = true ↔ cg.partyHp ≠ gs.partyHp := by
  rw [hpAnyDiffers, List.any_eq_true]
  constructor
  · rintro ⟨⟨i, hp⟩, hmem, hq⟩
    have hget : gs.partyHp.get? i = some hp := List.mk_mem_enum_iff_get?.mp hmem
    intro heq
    rw [← heq] at hget
    rw [hget] at hq
    simp at hq
  · intro hne
    have hex : ∃ i, cg.partyHp.get? i ≠ gs.partyHp.get? i := by
      by_contra hcon
      push_neg at hcon
      exact hne (List.ext hcon)
    obtain ⟨i, hi⟩ := hex
    have hilt : i < gs.partyHp.length := by
      by_contra hge
      push_neg at hge
      rw [List.get?_eq_none.mpr (by omega), List.get?_eq_none.mpr hge] at hi
      exact hi rfl
    rcases hgp : gs.partyHp.get? i with _ | hp
    · exact absurd (List.get?_eq_none.mp hgp) (by omega)
    · rcases hcp : cg.partyHp.get? i with _ | c
      · exact absurd (List.get?_eq_none.mp hcp) (by omega)
      · refine ⟨(i, hp), List.mk_mem_enum_iff_get?.mpr (by rw [hgp]), ?_⟩
        rw [hcp] at hi ⊢
        rw [hgp] at hi
        have hchp : c ≠ hp := fun hch => hi (by rw [hch])
        rcases (HpEntry_ne_iff c hp).mp hchp with hd | hd <;> simp [hd]

theorem hpAnyDiffers_self (g : GameState) : hpAnyDiffers g g = false := by
  rw [hpAnyDiffers]
  rw [List.any_eq_false]
  rintro ⟨i, hp⟩ hmem
  have hget : g.partyHp.get? i = some hp := List.mk_mem_enum_iff_get?.mp hmem
  rw [hget]
  simp

theorem sampleStep_self (g : GameState) :
    sampleStep (some g) (some g) = (some g, false) := by
  rw [sampleStep_some_some, hpAnyDiffers_self]
  simp

theorem runSampler_const (g : GameState) :
    ∀ (n : Nat) (p : Option GameState × Nat), p.1 = some g →
      (List.replicate n (some g)).foldl
        (fun p sample =>
          let q := sampleStep p.1 sample
          (q.1, p.2 + (if q.2 then 1 else 0))) p = p
  | 0, p, _ => rfl
  | n + 1, p, hp => by
    rw [List.replicate_succ, List.foldl_cons]
    have hstep : (let q := sampleStep p.1 (some g)
        ((q.1, p.2 + (if q.2 then 1 else 0)) : Option GameState × Nat)) = p := by
      rw [hp, sampleStep_self]
      show (some g, p.2 + 0) = p
      rw [Nat.add_zero, ← hp]
    rw [hstep]
    exact runSampler_const g n p hp

/-- C8: for consecutive samples, the interval body broadcasts (and caches
the new snapshot) exactly when the new snapshot differs from the cached
one in location, badge count, party count, money, or some per-slot
current/max HP (the well-formedness hypotheses — each snapshot carries
one HP entry per party member, as `getGameState` guarantees — make the
index-wise HP scan equivalent to HP-list inequality); the first
non-null sample is always broadcast, null samples never are, and a run
of identical snapshots from a fresh cache broadcasts exactly once. -/
theorem C8_theorem (o n : GameState)
    (hold : o.partyHp.length = o.partyCount)
    (hnew : n.partyHp.length = n.partyCount) :
    ((sampleStep (some o) (some n)).2 = true ↔ specDiffers o n) ∧
    ((sampleStep (some o) (some n)).2 = true →
      (sampleStep (some o) (some n)).1 = some n) ∧
    ((sampleStep (some o) (some n)).2 = false →
      (sampleStep (some o) (some n)).1 = some o) ∧
    sampleStep none (some n) = (some n, true) ∧
    (∀ cached, sampleStep cached none = (cached, false)) ∧
    (∀ k, runSampler none (List.replicate (k + 1) (some n)) = (some n, 1)) := by
  have hcond : (sampleStep (some o) (some n)).2 = true ↔ specDiffers o n := by
    rw [sampleStep_some_some]
    by_cases hb : (o.location != n.location || o.badgeCount != n.badgeCount ||
        o.partyCount != n.partyCount || o.money != n.money || hpAnyDiffers o n) = true
    · rw [if_pos hb]
      constructor
      · intro _
        simp only [Bool.or_eq_true, bne_iff_ne] at hb
        rcases hb with ((((h | h) | h) | h) | h)
        · exact Or.inl h
        · exact Or.inr (Or.inl h)
        · exact Or.inr (Or.inr (Or.inl h))
        · exact Or.inr (Or.inr (Or.inr (Or.inl h)))
        · by_cases hpc : o.partyCount = n.partyCount
          · have hlen : o.partyHp.length = n.partyHp.length := by omega
            exact Or.inr (Or.inr (Or.inr (Or.inr ((hpAnyDiffers_iff o n hlen).mp h))))
          · exact Or.inr (Or.inr (Or.inl hpc))
      · intro _
        rfl
    · rw [if_neg hb]
      constructor
      · intro hfalse
        exact absurd hfalse (by simp)
      · intro hd
        exfalso
        simp only [Bool.or_eq_true, bne_iff_ne] at hb
        push_neg at hb
        obtain ⟨⟨⟨⟨h1, h2⟩, h3⟩, h4⟩, h5⟩ := hb
        rcases hd with h | h | h | h | h
        · exact h h1
        · exact h h2
        · exact h h3
        · exact h h4
        · have hlen : o.partyHp.length = n.partyHp.length := by omega
          exact h5 ((hpAnyDiffers_iff o n hlen).mpr h)
  refine ⟨hcond, ?_, ?_, rfl, fun cached => rfl, ?_⟩
  · intro hbt
    rw [sampleStep_some_some] at hbt ⊢
    by_cases hb : (o.location != n.location || o.badgeCount != n.badgeCount ||
        o.partyCount != n.partyCount || o.money != n.money || hpAnyDiffers o n) = true
    · rw [if_pos hb]
    · rw [if_neg hb] at hbt
      simp at hbt
  · intro hbf
    rw [sampleStep_some_some] at hbf ⊢
    by_cases hb : (o.location != n.location || o.badgeCount != n.badgeCount ||
        o.partyCount != n.partyCount || o.money != n.money || hpAnyDiffers o n) = true
    · rw [if_pos hb] at hbf
      simp at hbf
    · rw [if_neg hb]
  · intro k
    rw [runSampler, List.replicate_succ, List.foldl_cons]
    have hfirst : (let q := sampleStep (none : Option GameState) (some n)
        ((q.1, 0 + (if q.2 then 1 else 0)) : Option GameState × Nat)) = (some n, 1) := by
      simp [sampleStep]
    rw [hfirst]
    exact runSampler_const n k (some n, 1) rfl



theorem shiftLeft8_lor_eq_add (x y : Nat) (hy : y < 256) :
    x <<< 8 ||| y = x * 256 + y := by
  have key : ∀ i, Nat.testBit (2 ^ 8 * x + y) i =
      (Nat.testBit (x <<< 8) i || Nat.testBit y i) := by
    intro i
    rcases Nat.lt_or_ge i 8 with hi | hi
    · have hfalse : Nat.testBit (x <<< 8) i = false := by
        rw [Nat.testBit_shiftLeft]
        simp [Nat.not_le.mpr hi]
      rw [hfalse, Bool.false_or]
      rw [Nat.testBit_to_div_mod, Nat.testBit_to_div_mod]
      have h28 : (2:Nat) ^ 8 = 2 ^ i * 2 ^ (8 - i) := by
        rw [← pow_add]
        congr 1
        omega
      rw [h28, Nat.mul_assoc, Nat.add_comm,
        Nat.add_mul_div_left _ _ (Nat.pos_pow_of_pos i (by norm_num))]
      obtain ⟨k, hk⟩ : (2:Nat) ∣ 2 ^ (8 - i) := dvd_pow_self 2 (by omega)
      rw [hk, Nat.mul_assoc, Nat.add_mul_mod_self_left]
    · have h256i : (256:Nat) ≤ 2 ^ i := by
        calc (256:Nat) = 2 ^ 8 := by norm_num
          _ ≤ 2 ^ i := Nat.pow_le_pow_right Nat.zero_lt_two hi
      have hyfalse : Nat.testBit y i = false :=
        Nat.testBit_eq_false_of_lt (lt_of_lt_of_le hy h256i)
      rw [hyfalse, Bool.or_false, Nat.testBit_shiftLeft]
      have h8 : (decide (8 ≤ i)) = true := by simp [hi]
      rw [h8, Bool.true_and]
      rw [Nat.testBit_to_div_mod, Nat.testBit_to_div_mod]
      have h2i : (2:Nat) ^ i = 2 ^ 8 * 2 ^ (i - 8) := by
        rw [← pow_add]
        congr 1
        omega
      rw [h2i, ← Nat.div_div_eq_div_mul,
        Nat.mul_add_div (by norm_num : (0:Nat) < 2 ^ 8),
        Nat.div_eq_of_lt (by norm_num [hy] : y < 2 ^ 8), Nat.add_zero]
  have h : x <<< 8 ||| y = 2 ^ 8 * x + y :=
    Nat.eq_of_testBit_eq fun i => by rw [Nat.testBit_lor, key i]
  rw [h]
  have h256 : (2:Nat) ^ 8 = 256 := by norm_num
  rw [h256, Nat.mul_comm]

/-- C8 witness: the theorem applied to two concrete snapshots differing
only in money (broadcast fires) and to a run of three identical
snapshots (exactly one broadcast). -/
theorem C8_witness :
    ((⟨⟨false, false, false, false, false, false, false, false⟩, 0, 0,
        "Pallet Town", 0, 0, 0, [], [], [], 0⟩ : GameState).partyHp.length =
      (⟨⟨false, false, false, false, false, false, false, false⟩, 0, 0,
        "Pallet Town", 0, 0, 0, [], [], [], 0⟩ : GameState).partyCount) ∧
    ((sampleStep
        (some ⟨⟨false, false, false, false, false, false, false, false⟩, 0, 0,
          "Pallet Town", 0, 0, 0, [], [], [], 0⟩)
        (some ⟨⟨false, false, false, false, false, false, false, false⟩, 0, 0,
          "Pallet Town", 0, 0, 0, [], [], [], 100⟩)).2 = true) ∧
    (runSampler none
        (List.replicate 3
          (some ⟨⟨false, false, false, false, false, false, false, false⟩, 0, 0,
            "Pallet Town", 0, 0, 0, [], [], [], 0⟩)) =
      (some ⟨⟨false, false, false, false, false, false, false, false⟩, 0, 0,
        "Pallet Town", 0, 0, 0, [], [], [], 0⟩, 1)) :=
  ⟨rfl,
    (C8_theorem
      ⟨⟨false, false, false, false, false, false, false, false⟩, 0, 0,
        "Pallet Town", 0, 0, 0, [], [], [], 0⟩
      ⟨⟨false, false, false, false, false, false, false, false⟩, 0, 0,
        "Pallet Town", 0, 0, 0, [], [], [], 100⟩ rfl rfl).1.mpr
      (Or.inr (Or.inr (Or.inr (Or.inl (by decide))))),
    (C8_theorem
      ⟨⟨false, false, false, false, false, false, false, false⟩, 0, 0,
        "Pallet Town", 0, 0, 0, [], [], [], 0⟩
      ⟨⟨false, false, false, false, false, false, false, false⟩, 0, 0,
        "Pallet Town", 0, 0, 0, [], [], [], 0⟩ rfl rfl).2.2.2.2.2 2⟩

theorem readMem_lt (mem : List Nat) (hb : ∀ byte ∈ mem, byte < 256)
    (addr : Nat) : readMem mem addr < 256 := by
  rw [readMem]
  rcases h : mem.get? addr with _ | x
  · simp
  · simp only [Option.getD_some]
    exact hb x (List.get?_mem h)

set_option maxRecDepth 4096 in
theorem badgeCount_byte :
    ∀ b < 256,
      (([decide (b &&& 0x01 ≠ 0), decide (b &&& 0x02 ≠ 0), decide (b &&& 0x04 ≠ 0),
         decide (b &&& 0x08 ≠ 0), decide (b &&& 0x10 ≠ 0), decide (b &&& 0x20 ≠ 0),
         decide (b &&& 0x40 ≠ 0), decide (b &&& 0x80 ≠ 0)].filter (fun x => x)).length) =
        specSetBits b := by
  decide

/-- C9: `getGameState` is total — `none` for an uninitialized emulator,
an absent memory array, or one shorter than 0xD400 — and on success the
snapshot decodes as specified: `badgeCount` counts the set bits of the
badge byte, `partyCount` is clamped to 6, each HP pair is big-endian from
two bytes, and money is the three-byte BCD decode.  The byte-range
hypothesis (`< 256`) holds for genuine emulator memory. -/
theorem C9_theorem :
    (getGameState none = none) ∧
    (getGameState (some none) = none) ∧
    (∀ mem : List Nat, mem.length < 0xD400 → getGameState (some (some mem)) = none) ∧
    (∀ (mem : List Nat) (gs : GameState), (∀ byte ∈ mem, byte < 256) →
      getGameState (some (some mem)) = some gs →
      gs.badgeCount = specSetBits (readMem mem 0xD356) ∧
      gs.partyCount = min (readMem mem 0xD163) 6 ∧
      gs.partyCount ≤ 6 ∧
      gs.partyHp.length = gs.partyCount ∧
      (∀ i, i < gs.partyHp.length →
        gs.partyHp.get? i = some
          ⟨readMem mem (0xD16B + i * 0x2C + 0x01) * 256 +
              readMem mem (0xD16B + i * 0x2C + 0x02),
            readMem mem (0xD16B + i * 0x2C + 0x22) * 256 +
              readMem mem (0xD16B + i * 0x2C + 0x23)⟩) ∧
      gs.money = decodeBCD (readMem mem 0xD347) * 10000 +
        decodeBCD (readMem mem 0xD348) * 100 + decodeBCD (readMem mem 0xD349)) := by
  refine ⟨rfl, rfl, ?_, ?_⟩
  · intro mem hlen
    simp only [getGameState]
    rw [if_pos hlen]
  · intro mem gs hbytes hgs
    simp only [getGameState] at hgs
    by_cases hlen : mem.length < 0xD400
    · rw [if_pos hlen] at hgs
      cases hgs
    · rw [if_neg hlen] at hgs
      simp only [Option.some.injEq] at hgs
      subst hgs
      refine ⟨?_, rfl, Nat.min_le_right _ 6, by simp, ?_, rfl⟩
      · exact badgeCount_byte (readMem mem 0xD356) (readMem_lt mem hbytes 0xD356)
      · intro i hi
        simp only [List.length_map, List.length_range] at hi
        rw [List.get?_map, List.get?_range hi]
        simp only [Option.map_some']
        congr 1
        have h1 := shiftLeft8_lor_eq_add (readMem mem (0xD16B + i * 0x2C + 0x01))
          (readMem mem (0xD16B + i * 0x2C + 0x02)) (readMem_lt mem hbytes _)
        have h2 := shiftLeft8_lor_eq_add (readMem mem (0xD16B + i * 0x2C + 0x22))
          (readMem mem (0xD16B + i * 0x2C + 0x23)) (readMem_lt mem hbytes _)
        rw [h1, h2]

theorem readMem_replicate_zero (n addr : Nat) :
    readMem (List.replicate n 0) addr = 0 := by
  rw [readMem]
  rcases h : (List.replicate n (0:Nat)).get? addr with _ | x
  · rfl
  · simp only [Option.getD_some]
    exact List.eq_of_mem_replicate (List.get?_mem h)

theorem getGameState_all_zero (mem : List Nat) (hlen : mem.length = 0xD400)
    (hr : ∀ addr, readMem mem addr = 0) :
    getGameState (some (some mem)) =
      some ⟨⟨false, false, false, false, false, false, false, false⟩, 0, 0,
            "Pallet Town", 0, 0, 0, [], [], [], 0⟩ := by
  unfold getGameState
  simp only [hr, hlen]
  rw [if_neg (by norm_num)]
  decide

theorem getGameState_replicate_zero :
    getGameState (some (some (List.replicate 0xD400 0))) =
      some ⟨⟨false, false, false, false, false, false, false, false⟩, 0, 0,
            "Pallet Town", 0, 0, 0, [], [], [], 0⟩ :=
  getGameState_all_zero (List.replicate 0xD400 0) (List.length_replicate 0xD400 0)
    (readMem_replicate_zero 0xD400)

/-- C9 witness: the theorem applied to the null inputs, to a 3-byte
memory, and to an all-zero 0xD400-byte memory. -/
theorem C9_witness :
    getGameState none = none ∧
    getGameState (some none) = none ∧
    ((List.replicate 3 (0:Nat)).length < 0xD400) ∧
    getGameState (some (some (List.replicate 3 0))) = none ∧
    (∀ byte ∈ List.replicate 0xD400 (0:Nat), byte < 256) ∧
    ((⟨⟨false, false, false, false, false, false, false, false⟩, 0, 0,
        "Pallet Town", 0, 0, 0, [], [], [], 0⟩ : GameState).badgeCount =
      specSetBits (readMem (List.replicate 0xD400 0) 0xD356)) ∧
    ((⟨⟨false, false, false, false, false, false, false, false⟩, 0, 0,
        "Pallet Town", 0, 0, 0, [], [], [], 0⟩ : GameState).money =
      decodeBCD (readMem (List.replicate 0xD400 0) 0xD347) * 10000 +
        decodeBCD (readMem (List.replicate 0xD400 0) 0xD348) * 100 +
        decodeBCD (readMem (List.replicate 0xD400 0) 0xD349)) := by
  have hbytes : ∀ byte ∈ List.replicate 0xD400 (0:Nat), byte < 256 := by
    intro b hb
    rw [List.eq_of_mem_replicate hb]
    decide
  have happ := C9_theorem.2.2.2 (List.replicate 0xD400 0) _ hbytes getGameState_replicate_zero
  exact ⟨C9_theorem.1, C9_theorem.2.1,
    by decide,
    C9_theorem.2.2.1 (List.replicate 3 0) (by decide),
    hbytes, happ.1, happ.2.2.2.2.2⟩

theorem BUTTON_MAP_lookup_none (button : String)
    (h : button ∉ ["RIGHT", "LEFT", "UP", "DOWN", "A", "B", "SELECT", "START"]) :
    BUTTON_MAP.lookup button = none := by
  simp only [List.mem_cons, not_or] at h
  obtain ⟨h1, h2, h3, h4, h5, h6, h7, h8, _⟩ := h
  have e1 : (button == "RIGHT") = false := beq_eq_false_iff_ne.mpr h1
  have e2 : (button == "LEFT") = false := beq_eq_false_iff_ne.mpr h2
  have e3 : (button == "UP") = false := beq_eq_false_iff_ne.mpr h3
  have e4 : (button == "DOWN") = false := beq_eq_false_iff_ne.mpr h4
  have e5 : (button == "A") = false := beq_eq_false_iff_ne.mpr h5
  have e6 : (button == "B") = false := beq_eq_false_iff_ne.mpr h6
  have e7 : (button == "SELECT") = false := beq_eq_false_iff_ne.mpr h7
  have e8 : (button == "START") = false := beq_eq_false_iff_ne.mpr h8
  simp only [BUTTON_MAP, List.lookup, e1, e2, e3, e4, e5, e6, e7, e8]

theorem BUTTON_MAP_lookup_some (button : String)
    (h : button ∈ ["RIGHT", "LEFT", "UP", "DOWN", "A", "B", "SELECT", "START"]) :
    ∃ k, BUTTON_MAP.lookup button = some k := by
  fin_cases h <;> exact ⟨_, rfl⟩

theorem buttonMapGet_none (button : String)
    (h1 : button ∉ ["RIGHT", "LEFT", "UP", "DOWN", "A", "B", "SELECT", "START"])
    (h2 : button ∉ OBJECT_PROTOTYPE_KEYS) :
    buttonMapGet button = none := by
  simp only [buttonMapGet, BUTTON_MAP_lookup_none button h1]
  rw [if_neg h2]

theorem buttonMapGet_some (button : String)
    (h : button ∈ ["RIGHT", "LEFT", "UP", "DOWN", "A", "B", "SELECT", "START"] ∨
      button ∈ OBJECT_PROTOTYPE_KEYS) :
    ∃ k, buttonMapGet button = some k := by
  rcases h with h | h
  · obtain ⟨k, hk⟩ := BUTTON_MAP_lookup_some button h
    exact ⟨k, by simp only [buttonMapGet, hk]⟩
  · fin_cases h <;> exact ⟨0, by decide⟩

/-- C10 counterexample: "toString" is not one of the eight mapped button
names, yet the bracket lookup resolves through the prototype chain to
`Object.prototype.toString`, which is not `undefined` — so on an
initialized driver `pressButton("toString", 5)` is not a no-op: it sets
the pending button and its frame count. -/
theorem C10_counterexample :
    ("toString" ∉ ["RIGHT", "LEFT", "UP", "DOWN", "A", "B", "SELECT", "START"]) ∧
    pressButton ⟨some (), none, 0⟩ "toString" 5 = ⟨some (), some "toString", 5⟩ ∧
    (⟨some (), some "toString", 5⟩ : DriverState) ≠ ⟨some (), none, 0⟩ := by
  decide

/-- C10 amended: `pressButton` is a no-op on the pending-press state when
the emulator is uninitialized, or when the name is neither one of the
eight mapped button names nor an `Object.prototype` property name — the
names for which the source's `=== undefined` guard does not fire; for a
mapped name, and equally for an inherited property name such as
"toString", it sets the pending button and its remaining frame count,
replacing any previous pending press. -/
theorem C10_amended_theorem (s : DriverState) (button : String) (d : Nat) :
    (s.gameboy = none → pressButton s button d = s) ∧
    (button ∉ ["RIGHT", "LEFT", "UP", "DOWN", "A", "B", "SELECT", "START"] →
      button ∉ OBJECT_PROTOTYPE_KEYS →
      pressButton s button d = s) ∧
    (s.gameboy.isSome →
      (button ∈ ["RIGHT", "LEFT", "UP", "DOWN", "A", "B", "SELECT", "START"] ∨
        button ∈ OBJECT_PROTOTYPE_KEYS) →
      (pressButton s button d).pendingButton = some button ∧
      (pressButton s button d).buttonFramesRemaining = d ∧
      (pressButton s button d).gameboy = s.gameboy) := by
  refine ⟨?_, ?_, ?_⟩
  · intro h
    simp only [pressButton, h]
  · intro hmem hproto
    rcases hg : s.gameboy with _ | u
    · simp only [pressButton, hg]
    · simp only [pressButton, hg, buttonMapGet_none button hmem hproto]
  · intro hg hmem
    obtain ⟨u, hu⟩ := Option.isSome_iff_exists.mp hg
    obtain ⟨k, hk⟩ := buttonMapGet_some button hmem
    simp only [pressButton, hu, hk]
    exact ⟨trivial, trivial, trivial⟩

/-- C10 witness: the amended theorem applied to an initialized driver
with a pending A press — the genuinely unmapped name "X" is ignored,
"UP" replaces the pending press, and the inherited property name
"hasOwnProperty" also replaces it. -/
theorem C10_witness :
    ((⟨some (), some "A", 3⟩ : DriverState).gameboy.isSome) ∧
    ("X" ∉ ["RIGHT", "LEFT", "UP", "DOWN", "A", "B", "SELECT", "START"]) ∧
    ("X" ∉ OBJECT_PROTOTYPE_KEYS) ∧
    pressButton ⟨some (), some "A", 3⟩ "X" 5 = ⟨some (), some "A", 3⟩ ∧
    (pressButton ⟨some (), some "A", 3⟩ "UP" 5).pendingButton = some "UP" ∧
    (pressButton ⟨some (), some "A", 3⟩ "UP" 5).buttonFramesRemaining = 5 ∧
    (pressButton ⟨some (), some "A", 3⟩ "hasOwnProperty" 5).pendingButton =
      some "hasOwnProperty" :=
  ⟨rfl, by decide, by decide,
    (C10_amended_theorem ⟨some (), some "A", 3⟩ "X" 5).2.1 (by decide) (by decide),
    ((C10_amended_theorem ⟨some (), some "A", 3⟩ "UP" 5).2.2 rfl
      (Or.inl (by decide))).1,
    ((C10_amended_theorem ⟨some (), some "A", 3⟩ "UP" 5).2.2 rfl
      (Or.inl (by decide))).2.1,
    ((C10_amended_theorem ⟨some (), some "A", 3⟩ "hasOwnProperty" 5).2.2 rfl
      (Or.inr (by decide))).1⟩


end MPP
